import Mathlib

/-!
Shallow embedding of the workflow execution engine of `WorkflowManager.py`
(classes `WorkflowContext`, `WorkflowStep`, `Workflow`), together with proofs
of the behavioural properties stated in the specification.

Modelling conventions:

* Python values stored in parameter bags, metadata records and the object
  store are modelled by the inductive type `PyVal`.
* Python `dict`s are modelled by `PyDict α` — association lists with the
  update-in-place-or-append semantics of CPython dictionaries.
* A raised Python exception is modelled as `Except PyErr`; the payload keeps
  `str(e)` and `traceback.format_exc()`.
* Stateful Python callables (the main operation, which may behave differently
  on each invocation) are modelled as functions of their invocation index; the
  context is passed explicitly because a callable may reach it through a
  closure (e.g. to call `request_stop`).
* `WorkflowContext.event_listeners` is threaded as a separate environment
  value (`Listeners`): a listener is a function on the context, and a field of
  listeners inside the context itself would be a negative occurrence.  The
  engine only ever reads the registry during a run (`on` is called before the
  run starts), so this is observation-equivalent.
* Two instrumentation fields record what the engine does, without influencing
  it: `events` logs every `emit_event` call (name and payload, in order) and
  `log` records every invocation of a pre-hook, the main operation or a
  post-hook made by the engine, tagged with the step id and the parameter bag
  passed to the callable.
-/

/-- A Python value as stored in parameter dictionaries, metadata records and
the context's object store.  `pyNone` doubles as Python's `None`. -/
inductive PyVal where
  | pyNone
  | pyBool (b : Bool)
  | pyInt (n : Int)
  | pyStr (s : String)
  | pyList (xs : List PyVal)

/-- A Python `dict` with `String` keys: an association list in insertion
order.  CPython dictionaries preserve insertion order; assigning to an
existing key overwrites in place, assigning to a new key appends. -/
def PyDict (α : Type) : Type := List (String × α)

namespace PyDict

/-- `d[k]` / `d.get(k)`: the value at the first occurrence of `k`. -/
def lookup {α : Type} : PyDict α → String → Option α
  | [], _ => none
  | (k', v) :: t, k => if k' = k then some v else lookup t k

/-- `d[k] = v`: overwrite in place if the key exists, else append. -/
def set {α : Type} : PyDict α → String → α → PyDict α
  | [], k, v => [(k, v)]
  | (k', v') :: t, k, v => if k' = k then (k, v) :: t else (k', v') :: set t k v

/-- `k in d`. -/
def contains {α : Type} (d : PyDict α) (k : String) : Bool :=
  (d.lookup k).isSome

/-- `del d[k]` (removing every occurrence; a dict built through `set` has at
most one). -/
def eraseKey {α : Type} : PyDict α → String → PyDict α
  | [], _ => []
  | e :: t, k => if e.1 = k then eraseKey t k else e :: eraseKey t k

/-- `d.pop(k, dflt)`: remove and return the value at `k`, or `dflt`. -/
def pop {α : Type} (d : PyDict α) (k : String) (dflt : α) : α × PyDict α :=
  match d.lookup k with
  | some v => (v, d.eraseKey k)
  | none => (dflt, d)

/-- The keys, in dictionary order. -/
def keys {α : Type} : PyDict α → List String
  | [] => []
  | e :: t => e.1 :: keys t

/-- The number of entries, `len(d)`. -/
def size {α : Type} (d : PyDict α) : Nat :=
  List.length d

/-- `{**d, **e}`: update `d` with every binding of `e`, in order. -/
def setAll {α : Type} (d e : PyDict α) : PyDict α :=
  e.foldl (fun acc kv => acc.set kv.1 kv.2) d

/-- `d[key].append(r)` where `d[key]` holds a Python list.  On a non-list
value Python would raise `AttributeError`; the engine always initialises the
key to `[]` first, so that branch is unreachable in the embedded code and we
leave the dictionary unchanged there. -/
def appendAt (d : PyDict PyVal) (key : String) (r : PyVal) : PyDict PyVal :=
  match d.lookup key with
  | some (PyVal.pyList xs) => d.set key (PyVal.pyList (xs ++ [r]))
  | _ => d

end PyDict

/-- `(str(e), traceback.format_exc())` of a raised exception. -/
abbrev PyErr : Type := String × String

/-- The interpretation the engine puts on the value popped for
`"max_retries"`: it is compared with `0` and decremented, which requires an
integer (Python `bool` is a subtype of `int`); any other value would raise
`TypeError` at `retries > 0`. -/
def PyVal.asRetries : PyVal → Int
  | .pyInt n => n
  | .pyBool b => if b then 1 else 0
  | _ => 0

/-- One record of the instrumentation call log: an invocation, by the engine,
of a pre-hook, of the main operation (with its invocation index) or of a
post-hook, tagged with the owning step's id and the parameter bag the engine
passed to the callable. -/
inductive CallEntry where
  | preCall (step_id : String) (params : PyDict PyVal)
  | mainCall (step_id : String) (params : PyDict PyVal) (attempt : Nat)
  | postCall (step_id : String) (params : PyDict PyVal)

/-- The step id a call-log entry is tagged with. -/
def CallEntry.sid : CallEntry → String
  | .preCall s _ => s
  | .mainCall s _ _ => s
  | .postCall s _ => s

/-- Whether a call-log entry records a main-operation invocation. -/
def CallEntry.isMain : CallEntry → Bool
  | .mainCall _ _ _ => true
  | _ => false

/-- One emitted event: its name and its payload dictionary. -/
abbrev EventRec : Type := String × PyDict PyVal

/-- Payload of the `started` progress event (line 83). -/
def startedPayload (sid nm : String) : PyDict PyVal :=
  [("status", .pyStr "started"), ("step_id", .pyStr sid), ("name", .pyStr nm)]

/-- Payload of the `retrying` progress event (line 108). -/
def retryingPayload (sid : String) : PyDict PyVal :=
  [("status", .pyStr "retrying"), ("step_id", .pyStr sid)]

/-- Payload of the `failed` progress event (line 113). -/
def failedPayload (sid : String) : PyDict PyVal :=
  [("status", .pyStr "failed"), ("step_id", .pyStr sid)]

/-- Payload of the `completed` progress event (line 129). -/
def completedPayload (sid nm : String) : PyDict PyVal :=
  [("status", .pyStr "completed"), ("step_id", .pyStr sid), ("name", .pyStr nm)]

/-- `WorkflowContext` (WorkflowManager.py lines 7-44), minus the listener
registry (threaded separately, see the module docstring) and plus the two
instrumentation logs `events` and `log`. -/
structure WorkflowContext where
  data : PyDict (PyDict PyVal)
  should_stop : Bool
  current_step_index : Nat
  objects : PyDict PyVal
  events : List EventRec
  log : List CallEntry

namespace WorkflowContext

/-- `WorkflowContext()`: the fresh context. -/
def fresh : WorkflowContext :=
  { data := [], should_stop := false, current_step_index := 0, objects := [],
    events := [], log := [] }

/-- `set_object` (line 15). -/
def set_object (c : WorkflowContext) (key : String) (obj : PyVal) : WorkflowContext :=
  { c with objects := c.objects.set key obj }

/-- `get_object` (line 18): `objects.get(key)` returns `None` when absent. -/
def get_object (c : WorkflowContext) (key : String) : PyVal :=
  (c.objects.lookup key).getD PyVal.pyNone

/-- `remove_object` (line 21): delete the key if present, otherwise no-op. -/
def remove_object (c : WorkflowContext) (key : String) : WorkflowContext :=
  { c with objects := c.objects.eraseKey key }

/-- `store_step_result` (line 25). -/
def store_step_result (c : WorkflowContext) (step_id : String)
    (metadata : PyDict PyVal) : WorkflowContext :=
  { c with data := c.data.set step_id metadata }

/-- `get_step_result` (line 28). -/
def get_step_result (c : WorkflowContext) (step_id : String) :
    Option (PyDict PyVal) :=
  c.data.lookup step_id

/-- `update_metadata` (line 31). -/
def update_metadata (c : WorkflowContext) (step_id key : String) (value : PyVal) :
    WorkflowContext :=
  match c.data.lookup step_id with
  | some m => { c with data := c.data.set step_id (m.set key value) }
  | none => { c with data := c.data.set step_id (PyDict.set [] key value) }

/-- `request_stop` (line 43). -/
def request_stop (c : WorkflowContext) : WorkflowContext :=
  { c with should_stop := true }

/-- Instrumentation: record one engine-made callable invocation. -/
def logCall (c : WorkflowContext) (e : CallEntry) : WorkflowContext :=
  { c with log := c.log ++ [e] }

end WorkflowContext

/-- An event listener: receives the payload; may reach the context through a
closure (Python callbacks routinely call `context.request_stop()` etc.). -/
abbrev Listener : Type := PyDict PyVal → WorkflowContext → WorkflowContext

/-- The listener registry `event_listeners : Dict[str, List[Callable]]`. -/
abbrev Listeners : Type := PyDict (List Listener)

/-- The callbacks registered for an event name: `event_listeners.get(name, [])`. -/
def Listeners.get (L : Listeners) (nm : String) : List Listener :=
  (PyDict.lookup L nm).getD []

namespace WorkflowContext

/-- `on` (line 36) — named `onEvent` here because `on` is a Lean keyword:
`setdefault(event_name, []).append(callback)`. -/
def onEvent (L : Listeners) (nm : String) (cb : Listener) : Listeners :=
  PyDict.set L nm (Listeners.get L nm ++ [cb])

/-- `emit_event` (lines 39-41): invoke every callback registered for the
name, in subscription order, on the current context.  The emission itself is
recorded in the instrumentation log `events` first. -/
def emit_event (L : Listeners) (c : WorkflowContext) (nm : String)
    (payload : PyDict PyVal) : WorkflowContext :=
  (Listeners.get L nm).foldl (fun acc cb => cb payload acc)
    { c with events := c.events ++ [(nm, payload)] }

end WorkflowContext

/-- A pre- or post-hook: called with the hook's shared parameter bag merged
with the live context and the metadata record
(`f(**{**params, "context": context, "metadata": metadata})`); it may mutate
both and returns a value, or raises. -/
abbrev Hook : Type :=
  PyDict PyVal → WorkflowContext → PyDict PyVal →
    Except PyErr (WorkflowContext × PyDict PyVal × PyVal)

/-- The main operation: called with the step's parameter bag
(`self.main_func(**self.main_params)`).  The `Nat` argument is the invocation
index (a stateful callable may fail on some attempts and succeed on others);
the context argument models closure access. -/
abbrev MainFunc : Type :=
  PyDict PyVal → Nat → WorkflowContext → WorkflowContext × Except PyErr PyVal

/-- `WorkflowStep` after construction (fields set by `__init__`,
WorkflowManager.py lines 48-68). -/
structure WorkflowStep where
  name : String
  main_func : MainFunc
  main_params : PyDict PyVal
  step_id : String
  pre_funcs : List Hook
  pre_params : PyDict PyVal
  post_funcs : List Hook
  post_params : PyDict PyVal
  max_retries : Int

namespace WorkflowStep

/-- `WorkflowStep.__init__` (lines 48-68): store the arguments, defaulting
the hook lists/bags, and `self.max_retries = self.main_params.pop("max_retries", 0)`
— the reserved key is removed from the parameter bag itself, and the mutated
bag is what the step keeps. -/
def init (name : String) (main_func : MainFunc) (main_params : PyDict PyVal)
    (step_id : String) (pre_funcs : List Hook) (pre_params : PyDict PyVal)
    (post_funcs : List Hook) (post_params : PyDict PyVal) : WorkflowStep :=
  let popped := main_params.pop "max_retries" (PyVal.pyInt 0)
  { name := name, main_func := main_func, main_params := popped.2,
    step_id := step_id, pre_funcs := pre_funcs, pre_params := pre_params,
    post_funcs := post_funcs, post_params := post_params,
    max_retries := popped.1.asRetries }

/-- The metadata record as first built by `run` (lines 77-80):
`{"step_id": self.step_id, **self.main_params}`. -/
def initialMetadata (s : WorkflowStep) : PyDict PyVal :=
  PyDict.setAll [("step_id", PyVal.pyStr s.step_id)] s.main_params

end WorkflowStep

/-- The call-log tag of a hook invocation: pre- or post-hook. -/
def hookTag (pre : Bool) (sid : String) (ps : PyDict PyVal) : CallEntry :=
  if pre then .preCall sid ps else .postCall sid ps

/-- The pre-hook loop (lines 86-93) and the post-hook loop (lines 117-123),
which have identical shape: invoke each hook with the shared bag, the context
and the metadata, append its return value to the list at `key`
(`"pre_result"` / `"post_result"`), and after each hook return early when
`context.should_stop` is observed.  The returned `Bool` is `true` when the
loop exited through that `return None`.  A hook's exception propagates. -/
def runHooks (pre : Bool) (params : PyDict PyVal) (sid key : String) :
    List Hook → WorkflowContext → PyDict PyVal →
      Except PyErr (WorkflowContext × PyDict PyVal × Bool)
  | [], c, m => .ok (c, m, false)
  | f :: fs, c, m =>
    let c0 := c.logCall (hookTag pre sid params)
    match f params c0 m with
    | .error e => .error e
    | .ok (c1, m1, r) =>
      let m2 := m1.appendAt key r
      if c1.should_stop then .ok (c1, m2, true)
      else runHooks pre params sid key fs c1 m2

/-- The `while True` retry loop around the main operation (lines 96-114).
`retries = self.max_retries; if retries > 0: retries -= 1` over the integer
budget is modelled as structural recursion on `max_retries.toNat`: for a
negative budget Python likewise performs exactly one attempt.  The test on
the remaining budget is hoisted to the head of each iteration, which does not
change the result: the budget is only consulted in the failure branch, and
both branches invoke the operation identically first.  On success the
result is recorded and the loop breaks; on failure `error`/`traceback` are
recorded in the metadata, then either a `retrying` event is emitted and the
operation re-invoked, or (budget exhausted) the stop flag is set, the metadata
is persisted, a `failed` event is emitted and `None` is signalled. -/
def mainLoop (g : MainFunc) (mp : PyDict PyVal) (sid : String) (L : Listeners) :
    Nat → Nat → WorkflowContext → PyDict PyVal →
      WorkflowContext × PyDict PyVal × Option PyVal
  | 0, att, c, m =>
    match g mp att (c.logCall (.mainCall sid mp att)) with
    | (c1, .ok r) => (c1, m.set "result" r, some r)
    | (c1, .error e) =>
      let m1 := (m.set "error" (.pyStr e.1)).set "traceback" (.pyStr e.2)
      let c2 := WorkflowContext.store_step_result
        { c1 with should_stop := true } sid m1
      (WorkflowContext.emit_event L c2 "progress" (failedPayload sid), m1, none)
  | fuel' + 1, att, c, m =>
    match g mp att (c.logCall (.mainCall sid mp att)) with
    | (c1, .ok r) => (c1, m.set "result" r, some r)
    | (c1, .error e) =>
      mainLoop g mp sid L fuel' (att + 1)
        (WorkflowContext.emit_event L c1 "progress" (retryingPayload sid))
        ((m.set "error" (.pyStr e.1)).set "traceback" (.pyStr e.2))

/-- `WorkflowStep.run` (lines 70-130).  Returns `.error` when a hook raises
(the engine has no handler around the hook loops), otherwise `.ok` with the
final context and the Python return value (`None` on every early exit, the
final `metadata["result"]` on completion). -/
def WorkflowStep.run (s : WorkflowStep) (L : Listeners) (c : WorkflowContext) :
    Except PyErr (WorkflowContext × Option PyVal) :=
  if c.should_stop then .ok (c, none)
  else
    let m0 := s.initialMetadata
    let cA := WorkflowContext.emit_event L c "progress"
      (startedPayload s.step_id s.name)
    let m1 := m0.set "pre_result" (.pyList [])
    match runHooks true s.pre_params s.step_id "pre_result" s.pre_funcs cA m1 with
    | .error e => .error e
    | .ok (cB, m2, stoppedPre) =>
      if stoppedPre then .ok (cB, none)
      else
        match mainLoop s.main_func s.main_params s.step_id L
            s.max_retries.toNat 0 cB m2 with
        | (cC, _, none) => .ok (cC, none)
        | (cC, m3, some _) =>
          let m4 := m3.set "post_result" (.pyList [])
          match runHooks false s.post_params s.step_id "post_result"
              s.post_funcs cC m4 with
          | .error e => .error e
          | .ok (cD, m5, stoppedPost) =>
            if stoppedPost then .ok (cD, none)
            else
              let cE := cD.store_step_result s.step_id m5
              let cF := WorkflowContext.emit_event L cE "progress"
                (completedPayload s.step_id s.name)
              .ok (cF, some ((m5.lookup "result").getD PyVal.pyNone))

/-- `Workflow` (lines 132-134). -/
structure Workflow where
  steps : List WorkflowStep

namespace Workflow

/-- The loop of `Workflow.run` (lines 141-146): from index `i`, break when
`should_stop` is observed before a step, otherwise run the step and set
`current_step_index = i + 1` unconditionally afterwards.  A hook exception
escapes the loop (and skips the cursor update), as in Python. -/
def runFrom (w : Workflow) (L : Listeners) (i : Nat) (c : WorkflowContext) :
    Except PyErr WorkflowContext :=
  if h : i < w.steps.length then
    if c.should_stop then .ok c
    else
      match (w.steps.get ⟨i, h⟩).run L c with
      | .error e => .error e
      | .ok (c1, _) => w.runFrom L (i + 1) { c1 with current_step_index := i + 1 }
  else .ok c
termination_by w.steps.length - i

/-- `Workflow.run` (lines 136-148): use the given context or a fresh one and
iterate from `context.current_step_index` (the range is computed once, and
the loop variable — not the context field — drives the iteration). -/
def run (w : Workflow) (L : Listeners) (ctx : Option WorkflowContext) :
    Except PyErr WorkflowContext :=
  let c := ctx.getD WorkflowContext.fresh
  w.runFrom L c.current_step_index c

end Workflow

/-! ## Behaviour classes for hooks, main operations and listeners

The spec's properties quantify over steps whose callables are ordinary
instrument operations: they may compute, rewrite the metadata record and
return values, but do not reach into the engine's own state.  The predicates
below grade how much of the context a callable is allowed to touch. -/

/-- A hook that neither raises nor touches the context; it may rewrite the
metadata record and return any value. -/
def PureHook (f : Hook) : Prop :=
  ∀ p c m, ∃ mr : PyDict PyVal × PyVal, f p c m = .ok (c, mr.1, mr.2)

/-- A hook that never raises (it may mutate the context and metadata). -/
def NoRaiseHook (f : Hook) : Prop :=
  ∀ p c m, ∃ o, f p c m = .ok o

/-- A hook that never raises, never emits an event and never changes the stop
flag (it may otherwise mutate the context). -/
def TameHook (f : Hook) : Prop :=
  ∀ p c m, ∃ o : WorkflowContext × PyDict PyVal × PyVal,
    f p c m = .ok o ∧ o.1.events = c.events ∧ o.1.should_stop = c.should_stop

/-- A main operation that always succeeds and never touches the context. -/
def OkMain (g : MainFunc) : Prop :=
  ∀ p n c, ∃ r : PyVal, g p n c = (c, Except.ok r)

/-- A main operation that, without touching the context, fails on its first
`F` invocations with the given errors and succeeds from invocation `F` on. -/
def FailsUntil (g : MainFunc) (F : Nat) (err : Nat → PyErr) (res : Nat → PyVal) :
    Prop :=
  ∀ p n c, g p n c = (c, if n < F then .error (err n) else .ok (res n))

/-- A main operation that fails on its first `F` invocations and succeeds
afterwards, never emitting events or changing the stop flag, but otherwise
free to mutate the context. -/
def TameMainUntil (g : MainFunc) (F : Nat) : Prop :=
  ∀ p n c, (g p n c).1.events = c.events ∧
    (g p n c).1.should_stop = c.should_stop ∧
    (n < F → ∃ e, (g p n c).2 = .error e) ∧
    (F ≤ n → ∃ r, (g p n c).2 = .ok r)

/-- A step whose hooks are pure and whose main operation always succeeds:
it completes normally whenever it is started. -/
def BenignStep (s : WorkflowStep) : Prop :=
  (∀ f ∈ s.pre_funcs, PureHook f) ∧ OkMain s.main_func ∧
    (∀ f ∈ s.post_funcs, PureHook f)

/-- Listener callbacks that do nothing to the context (pure observers). -/
def IdListeners (L : Listeners) : Prop :=
  ∀ nm cb, cb ∈ Listeners.get L nm → ∀ p c, cb p c = c

/-- Listener callbacks that emit no events of their own and never change the
stop flag (they may otherwise mutate the context). -/
def TameListeners (L : Listeners) : Prop :=
  ∀ nm cb, cb ∈ Listeners.get L nm → ∀ p c,
    (cb p c).events = c.events ∧ (cb p c).should_stop = c.should_stop

/-! ## The event records and call-log segments the engine produces -/

/-- The `started` progress event of a step (line 83). -/
def startedEv (s : WorkflowStep) : EventRec :=
  ("progress", startedPayload s.step_id s.name)

/-- The `completed` progress event of a step (line 129). -/
def completedEv (s : WorkflowStep) : EventRec :=
  ("progress", completedPayload s.step_id s.name)

/-- The `retrying` progress event (line 108). -/
def retryingEv (sid : String) : EventRec :=
  ("progress", retryingPayload sid)

/-- The `failed` progress event (line 113). -/
def failedEv (sid : String) : EventRec :=
  ("progress", failedPayload sid)

/-- The events of one normally completing, non-retrying step. -/
def stepEvents (s : WorkflowStep) : List EventRec :=
  [startedEv s, completedEv s]

/-- `n` consecutive `retrying` events. -/
def retryEvs (sid : String) (n : Nat) : List EventRec :=
  List.replicate n (retryingEv sid)

/-- The main-operation call-log entries for invocations `att, …, att+n-1`. -/
def mainCalls (sid : String) (mp : PyDict PyVal) (att n : Nat) : List CallEntry :=
  (List.range' att n).map (fun j => .mainCall sid mp j)

/-- The call log of one normally completing step run. -/
def benignLog (s : WorkflowStep) : List CallEntry :=
  List.replicate s.pre_funcs.length (.preCall s.step_id s.pre_params) ++
    [.mainCall s.step_id s.main_params 0] ++
    List.replicate s.post_funcs.length (.postCall s.step_id s.post_params)

/-- The concatenated event traces of a run of consecutive benign steps. -/
def eventsOfSteps : List WorkflowStep → List EventRec
  | [] => []
  | s :: t => stepEvents s ++ eventsOfSteps t

/-! ## Dictionary lemmas -/

namespace PyDict

theorem lookup_set_self {α : Type} (d : PyDict α) (k : String) (v : α) :
    (d.set k v).lookup k = some v := by
  induction d with
  | nil => simp [set, lookup]
  | cons e t ih =>
    by_cases h : e.1 = k
    · simp [set, lookup, h]
    · simp [set, lookup, h, ih]

theorem lookup_set_ne {α : Type} (d : PyDict α) {k k' : String} (v : α)
    (h : k' ≠ k) : (d.set k v).lookup k' = d.lookup k' := by
  induction d with
  | nil => simp [set, lookup, Ne.symm h]
  | cons e t ih =>
    by_cases he : e.1 = k
    · simp [set, lookup, he, Ne.symm h]
    · by_cases he' : e.1 = k'
      · simp [set, lookup, he, he', h, Ne.symm h]
      · simp [set, lookup, he, he', ih]

theorem lookup_eq_none_iff {α : Type} (d : PyDict α) (k : String) :
    d.lookup k = none ↔ k ∉ d.keys := by
  induction d with
  | nil => simp [lookup, keys]
  | cons e t ih =>
    by_cases he : e.1 = k
    · simp [lookup, keys, he]
    · simp [lookup, keys, he, Ne.symm he, ih]

theorem lookup_eq_none_of_not_mem_keys {α : Type} {d : PyDict α} {k : String}
    (h : k ∉ d.keys) : d.lookup k = none :=
  (lookup_eq_none_iff d k).mpr h

theorem contains_iff_mem_keys {α : Type} (d : PyDict α) (k : String) :
    d.contains k = true ↔ k ∈ d.keys := by
  simp [contains, Option.isSome_iff_ne_none, Ne, lookup_eq_none_iff]

theorem keys_set_of_mem {α : Type} (d : PyDict α) (k : String) (v : α)
    (h : k ∈ d.keys) : (d.set k v).keys = d.keys := by
  induction d with
  | nil => simp [keys] at h
  | cons e t ih =>
    by_cases he : e.1 = k
    · simp [set, keys, he]
    · have hk : k ∈ keys t := by
        simp only [keys, List.mem_cons] at h
        rcases h with h1 | h1
        · exact absurd h1.symm he
        · exact h1
      simp [set, keys, he, ih hk]

theorem keys_set_of_not_mem {α : Type} (d : PyDict α) (k : String) (v : α)
    (h : k ∉ d.keys) : (d.set k v).keys = d.keys ++ [k] := by
  induction d with
  | nil => simp [set, keys]
  | cons e t ih =>
    by_cases he : e.1 = k
    · exact absurd (by simp [keys, he]) h
    · have hk : k ∉ keys t := fun hh => h (by simp [keys, List.mem_cons]; exact Or.inr hh)
      simp [set, keys, he, ih hk]

theorem size_eq_keys_length {α : Type} (d : PyDict α) : d.size = d.keys.length := by
  induction d with
  | nil => rfl
  | cons e t ih => simpa [size, keys, List.length] using ih

theorem lookup_setAll_of_not_mem {α : Type} (e : PyDict α) {k : String}
    (h : e.lookup k = none) (d : PyDict α) : (d.setAll e).lookup k = d.lookup k := by
  induction e generalizing d with
  | nil => rfl
  | cons x t ih =>
    have hx : ¬ x.1 = k := by
      intro hh; simp [lookup, hh] at h
    have ht : lookup t k = none := by simpa [lookup, hx] using h
    have hstep : setAll d (x :: t) = setAll (d.set x.1 x.2) t := rfl
    rw [hstep, ih ht, lookup_set_ne _ _ (Ne.symm hx)]

theorem eraseKey_lookup_self {α : Type} (d : PyDict α) (k : String) :
    (d.eraseKey k).lookup k = none := by
  induction d with
  | nil => rfl
  | cons e t ih =>
    by_cases h : e.1 = k
    · simpa [eraseKey, h] using ih
    · simpa [eraseKey, lookup, h] using ih

theorem eraseKey_lookup_ne {α : Type} (d : PyDict α) {k k' : String}
    (h : k' ≠ k) : (d.eraseKey k).lookup k' = d.lookup k' := by
  induction d with
  | nil => rfl
  | cons e t ih =>
    by_cases he : e.1 = k
    · have hne : ¬ e.1 = k' := by rw [he]; exact Ne.symm h
      simpa [eraseKey, he, lookup, hne, Ne.symm h] using ih
    · by_cases he' : e.1 = k'
      · simp [eraseKey, he, lookup, he', h, Ne.symm h]
      · simpa [eraseKey, he, lookup, he'] using ih

theorem eraseKey_of_not_mem {α : Type} {d : PyDict α} {k : String}
    (h : d.lookup k = none) : d.eraseKey k = d := by
  induction d with
  | nil => rfl
  | cons e t ih =>
    have he : ¬ e.1 = k := by intro hh; simp [lookup, hh] at h
    have ht : lookup t k = none := by simpa [lookup, he] using h
    simp [eraseKey, he, ih ht]

theorem lookup_appendAt_ne (d : PyDict PyVal) {key k : String} (r : PyVal)
    (h : k ≠ key) : (d.appendAt key r).lookup k = d.lookup k := by
  unfold appendAt
  cases hl : d.lookup key with
  | none => rfl
  | some v =>
    cases v with
    | pyList xs => exact lookup_set_ne _ _ h
    | pyNone => rfl
    | pyBool b => rfl
    | pyInt n => rfl
    | pyStr s => rfl

end PyDict

/-! ## Listener and emission lemmas -/

theorem foldl_listener_id (p : PyDict PyVal) :
    ∀ (cbs : List Listener), (∀ cb ∈ cbs, ∀ q c, cb q c = c) →
    ∀ c : WorkflowContext, cbs.foldl (fun acc cb => cb p acc) c = c := by
  intro cbs
  induction cbs with
  | nil => intro _ c; rfl
  | cons f t ih =>
    intro h c
    rw [List.foldl_cons, h f (List.mem_cons_self f t) p c]
    exact ih (fun cb hcb => h cb (List.mem_cons_of_mem f hcb)) c

theorem emit_id {L : Listeners} (hL : IdListeners L) (c : WorkflowContext)
    (nm : String) (p : PyDict PyVal) :
    WorkflowContext.emit_event L c nm p =
      { c with events := c.events ++ [(nm, p)] } := by
  unfold WorkflowContext.emit_event
  exact foldl_listener_id p (Listeners.get L nm) (hL nm) _

theorem foldl_listener_tame (p : PyDict PyVal) :
    ∀ (cbs : List Listener),
    (∀ cb ∈ cbs, ∀ q c, (cb q c).events = c.events ∧
      (cb q c).should_stop = c.should_stop) →
    ∀ c : WorkflowContext,
      (cbs.foldl (fun acc cb => cb p acc) c).events = c.events ∧
      (cbs.foldl (fun acc cb => cb p acc) c).should_stop = c.should_stop := by
  intro cbs
  induction cbs with
  | nil => intro _ c; exact ⟨rfl, rfl⟩
  | cons f t ih =>
    intro h c
    have hf := h f (List.mem_cons_self f t) p c
    have ht := ih (fun cb hcb => h cb (List.mem_cons_of_mem f hcb)) (f p c)
    rw [List.foldl_cons]
    exact ⟨ht.1.trans hf.1, ht.2.trans hf.2⟩

theorem emit_tame {L : Listeners} (hL : TameListeners L) (c : WorkflowContext)
    (nm : String) (p : PyDict PyVal) :
    (WorkflowContext.emit_event L c nm p).events = c.events ++ [(nm, p)] ∧
    (WorkflowContext.emit_event L c nm p).should_stop = c.should_stop := by
  unfold WorkflowContext.emit_event
  exact foldl_listener_tame p (Listeners.get L nm) (hL nm) _

/-! ## Hook-loop lemmas -/

theorem runHooks_pure (pre : Bool) (ps : PyDict PyVal) (sid key : String) :
    ∀ (fs : List Hook), (∀ f ∈ fs, PureHook f) →
    ∀ (c : WorkflowContext) (m : PyDict PyVal), c.should_stop = false →
    ∃ m', runHooks pre ps sid key fs c m =
      .ok ({ c with log := c.log ++ List.replicate fs.length (hookTag pre sid ps) },
        m', false) := by
  intro fs
  induction fs with
  | nil =>
    intro _ c m _
    exact ⟨m, by simp [runHooks]⟩
  | cons f t ih =>
    intro hfs c m hstop
    obtain ⟨mr, hf⟩ := hfs f (List.mem_cons_self f t) ps
      (c.logCall (hookTag pre sid ps)) m
    obtain ⟨m', hrec⟩ := ih (fun g hg => hfs g (List.mem_cons_of_mem f hg))
      (c.logCall (hookTag pre sid ps))
      (mr.1.appendAt key mr.2) hstop
    refine ⟨m', ?_⟩
    simp only [runHooks, WorkflowContext.logCall] at hrec hf ⊢
    rw [hf]
    simp only [hstop, Bool.false_eq_true, if_false]
    rw [hstop] at hrec
    simpa using hrec

theorem runHooks_tame (pre : Bool) (ps : PyDict PyVal) (sid key : String) :
    ∀ (fs : List Hook), (∀ f ∈ fs, TameHook f) →
    ∀ (c : WorkflowContext) (m : PyDict PyVal), c.should_stop = false →
    ∃ c' m', runHooks pre ps sid key fs c m = .ok (c', m', false) ∧
      c'.events = c.events ∧ c'.should_stop = false := by
  intro fs
  induction fs with
  | nil =>
    intro _ c m hstop
    exact ⟨c, m, rfl, rfl, hstop⟩
  | cons f t ih =>
    intro hfs c m hstop
    obtain ⟨o, hf, hev, hst⟩ := hfs f (List.mem_cons_self f t) ps
      (c.logCall (hookTag pre sid ps)) m
    obtain ⟨c1, m1, r⟩ := o
    have hstop1 : c1.should_stop = false := hst.trans hstop
    obtain ⟨c', m', hrec, hev', hst'⟩ :=
      ih (fun g hg => hfs g (List.mem_cons_of_mem f hg)) c1 (m1.appendAt key r) hstop1
    refine ⟨c', m', ?_, ?_, hst'⟩
    · simp only [runHooks, hf, hstop1, Bool.false_eq_true, if_false, hrec]
    · exact hev'.trans hev

theorem runHooks_noRaise (pre : Bool) (ps : PyDict PyVal) (sid key : String) :
    ∀ (fs : List Hook), (∀ f ∈ fs, NoRaiseHook f) →
    ∀ (c : WorkflowContext) (m : PyDict PyVal),
    ∃ o, runHooks pre ps sid key fs c m = .ok o := by
  intro fs
  induction fs with
  | nil => intro _ c m; exact ⟨(c, m, false), rfl⟩
  | cons f t ih =>
    intro hfs c m
    obtain ⟨o, hf⟩ := hfs f (List.mem_cons_self f t) ps
      (c.logCall (hookTag pre sid ps)) m
    obtain ⟨c1, m1, r⟩ := o
    by_cases hstop : c1.should_stop = true
    · exact ⟨(c1, m1.appendAt key r, true), by simp only [runHooks, hf, hstop, if_true]⟩
    · obtain ⟨o', ho'⟩ := ih (fun g hg => hfs g (List.mem_cons_of_mem f hg))
        c1 (m1.appendAt key r)
      exact ⟨o', by simp only [runHooks, hf]; rw [if_neg hstop]; exact ho'⟩

/-! ## Main-loop lemmas -/

theorem mainCalls_one (sid : String) (mp : PyDict PyVal) (att : Nat) :
    mainCalls sid mp att 1 = [.mainCall sid mp att] := by
  simp [mainCalls]

theorem mainCalls_succ (sid : String) (mp : PyDict PyVal) (att n : Nat) :
    mainCalls sid mp att (n + 1) = .mainCall sid mp att :: mainCalls sid mp (att + 1) n := by
  simp [mainCalls, List.range'_succ]

theorem mainLoop_ok (g : MainFunc) (hg : OkMain g) (mp : PyDict PyVal)
    (sid : String) (L : Listeners) (fuel att : Nat) (c : WorkflowContext)
    (m : PyDict PyVal) :
    ∃ r, mainLoop g mp sid L fuel att c m =
      ({ c with log := c.log ++ [.mainCall sid mp att] }, m.set "result" r, some r) := by
  obtain ⟨r, hr⟩ := hg mp att (c.logCall (.mainCall sid mp att))
  refine ⟨r, ?_⟩
  cases fuel with
  | zero =>
    simp only [mainLoop, WorkflowContext.logCall] at hr ⊢
    rw [hr]
  | succ fuel' =>
    simp only [mainLoop, WorkflowContext.logCall] at hr ⊢
    rw [hr]

theorem mainLoop_fail (g : MainFunc) (mp : PyDict PyVal) (sid : String)
    (L : Listeners) (hL : IdListeners L) (err : Nat → PyErr)
    (hg : ∀ p n c, g p n c = (c, .error (err n))) :
    ∀ (fuel att : Nat) (c : WorkflowContext) (m : PyDict PyVal),
    ∃ out mfin,
      mainLoop g mp sid L fuel att c m = (out, mfin, none) ∧
      out.data = c.data.set sid mfin ∧
      out.should_stop = true ∧
      out.current_step_index = c.current_step_index ∧
      out.objects = c.objects ∧
      out.events = c.events ++ retryEvs sid fuel ++ [failedEv sid] ∧
      out.log = c.log ++ mainCalls sid mp att (fuel + 1) ∧
      mfin.lookup "error" = some (.pyStr (err (att + fuel)).1) ∧
      mfin.lookup "traceback" = some (.pyStr (err (att + fuel)).2) := by
  intro fuel
  induction fuel with
  | zero =>
    intro att c m
    have hstep : mainLoop g mp sid L 0 att c m =
        (WorkflowContext.emit_event L
          (WorkflowContext.store_step_result
            { c.logCall (.mainCall sid mp att) with should_stop := true }
            sid ((m.set "error" (.pyStr (err att).1)).set "traceback"
              (.pyStr (err att).2)))
          "progress" (failedPayload sid),
         (m.set "error" (.pyStr (err att).1)).set "traceback" (.pyStr (err att).2),
         none) := by
      simp only [mainLoop]
      rw [hg]
    refine ⟨_, _, hstep, ?_, ?_, ?_, ?_, ?_, ?_, ?_, ?_⟩
    · simp [emit_id hL, WorkflowContext.store_step_result, WorkflowContext.logCall]
    · simp [emit_id hL, WorkflowContext.store_step_result, WorkflowContext.logCall]
    · simp [emit_id hL, WorkflowContext.store_step_result, WorkflowContext.logCall]
    · simp [emit_id hL, WorkflowContext.store_step_result, WorkflowContext.logCall]
    · simp [emit_id hL, WorkflowContext.store_step_result, WorkflowContext.logCall,
        retryEvs, failedEv]
    · simp [emit_id hL, WorkflowContext.store_step_result, WorkflowContext.logCall,
        mainCalls_one]
    · rw [PyDict.lookup_set_ne _ _ (by decide), PyDict.lookup_set_self]
      simp
    · rw [PyDict.lookup_set_self]
      simp
  | succ fuel' ih =>
    intro att c m
    have hstep : mainLoop g mp sid L (fuel' + 1) att c m =
        mainLoop g mp sid L fuel' (att + 1)
          (WorkflowContext.emit_event L (c.logCall (.mainCall sid mp att))
            "progress" (retryingPayload sid))
          ((m.set "error" (.pyStr (err att).1)).set "traceback"
            (.pyStr (err att).2)) := by
      simp only [mainLoop]
      rw [hg]
    obtain ⟨out, mfin, heq, hdata, hsp, hcur, hobj, hev, hlog, herr, htb⟩ :=
      ih (att + 1)
        (WorkflowContext.emit_event L (c.logCall (.mainCall sid mp att))
          "progress" (retryingPayload sid))
        ((m.set "error" (.pyStr (err att).1)).set "traceback" (.pyStr (err att).2))
    simp only [emit_id hL, WorkflowContext.logCall] at hdata hsp hcur hobj hev hlog
    refine ⟨out, mfin, hstep.trans heq, hdata, hsp, hcur, hobj, ?_, ?_, ?_, ?_⟩
    · rw [hev]
      simp [retryEvs, retryingEv, List.replicate_succ]
    · rw [hlog, mainCalls_succ sid mp att (fuel' + 1)]
      simp
    · rw [herr]
      have harith : att + 1 + fuel' = att + (fuel' + 1) := by omega
      rw [harith]
    · rw [htb]
      have harith : att + 1 + fuel' = att + (fuel' + 1) := by omega
      rw [harith]

theorem mainLoop_until (g : MainFunc) (F : Nat) (err : Nat → PyErr)
    (res : Nat → PyVal) (hg : FailsUntil g F err res) (mp : PyDict PyVal)
    (sid : String) (L : Listeners) (hL : IdListeners L) :
    ∀ (n att fuel : Nat) (c : WorkflowContext) (m : PyDict PyVal),
    att + n = F → n ≤ fuel →
    ∃ out mfin,
      mainLoop g mp sid L fuel att c m = (out, mfin, some (res F)) ∧
      out.data = c.data ∧
      out.should_stop = c.should_stop ∧
      out.current_step_index = c.current_step_index ∧
      out.objects = c.objects ∧
      out.events = c.events ++ retryEvs sid n ∧
      out.log = c.log ++ mainCalls sid mp att (n + 1) ∧
      mfin.lookup "result" = some (res F) ∧
      (n = 0 → mfin = m.set "result" (res F)) ∧
      (0 < n → mfin.lookup "error" = some (.pyStr (err (F - 1)).1) ∧
        mfin.lookup "traceback" = some (.pyStr (err (F - 1)).2)) := by
  intro n
  induction n with
  | zero =>
    intro att fuel c m hatt hfuel
    have hattF : att = F := by omega
    subst hattF
    have hr : g mp att (c.logCall (.mainCall sid mp att)) =
        (c.logCall (.mainCall sid mp att), .ok (res att)) := by
      rw [hg]
      simp
    have heq : mainLoop g mp sid L fuel att c m =
        (c.logCall (.mainCall sid mp att), m.set "result" (res att),
          some (res att)) := by
      cases fuel with
      | zero => simp only [mainLoop]; rw [hr]
      | succ fuel' => simp only [mainLoop]; rw [hr]
    refine ⟨_, _, heq, rfl, rfl, rfl, rfl, ?_, ?_, ?_, ?_, ?_⟩
    · simp [WorkflowContext.logCall, retryEvs]
    · simp [WorkflowContext.logCall, mainCalls_one]
    · rw [PyDict.lookup_set_self]
    · intro _; rfl
    · intro h; omega
  | succ n' ih =>
    intro att fuel c m hatt hfuel
    have hlt : att < F := by omega
    have hr : g mp att (c.logCall (.mainCall sid mp att)) =
        (c.logCall (.mainCall sid mp att), .error (err att)) := by
      rw [hg]
      simp [hlt]
    cases fuel with
    | zero => omega
    | succ fuel' =>
      obtain ⟨out, mfin, heqr, hdata, hsp, hcur, hobj, hev, hlog, hres, hzero, hpos⟩ :=
        ih (att + 1) fuel'
          (WorkflowContext.emit_event L (c.logCall (.mainCall sid mp att))
            "progress" (retryingPayload sid))
          ((m.set "error" (.pyStr (err att).1)).set "traceback" (.pyStr (err att).2))
          (by omega) (by omega)
      have hstep : mainLoop g mp sid L (fuel' + 1) att c m =
          mainLoop g mp sid L fuel' (att + 1)
            (WorkflowContext.emit_event L (c.logCall (.mainCall sid mp att))
              "progress" (retryingPayload sid))
            ((m.set "error" (.pyStr (err att).1)).set "traceback"
              (.pyStr (err att).2)) := by
        simp only [mainLoop]
        rw [hr]
      simp only [emit_id hL, WorkflowContext.logCall] at hdata hsp hcur hobj hev hlog
      refine ⟨out, mfin, hstep.trans heqr, hdata, hsp, hcur, hobj, ?_, ?_, hres, ?_, ?_⟩
      · rw [hev]
        simp [retryEvs, retryingEv, List.replicate_succ]
      · rw [hlog, mainCalls_succ sid mp att (n' + 1)]
        simp
      · intro h
        omega
      · intro _
        by_cases hn : n' = 0
        · subst hn
          have hFatt : att = F - 1 := by omega
          rw [hzero rfl]
        
          constructor
          · rw [PyDict.lookup_set_ne _ _ (by decide),
              PyDict.lookup_set_ne _ _ (by decide), PyDict.lookup_set_self, hFatt]
          · rw [PyDict.lookup_set_ne _ _ (by decide), PyDict.lookup_set_self, hFatt]
        · exact hpos (by omega)

theorem mainLoop_tame_until (g : MainFunc) (F : Nat) (hg : TameMainUntil g F)
    (mp : PyDict PyVal) (sid : String) (L : Listeners) (hL : TameListeners L) :
    ∀ (n att fuel : Nat) (c : WorkflowContext) (m : PyDict PyVal),
    att + n = F → n ≤ fuel →
    ∃ out mfin r,
      mainLoop g mp sid L fuel att c m = (out, mfin, some r) ∧
      out.events = c.events ++ retryEvs sid n ∧
      out.should_stop = c.should_stop := by
  intro n
  induction n with
  | zero =>
    intro att fuel c m hatt hfuel
    obtain ⟨hev, hsp, _, hok⟩ := hg mp att (c.logCall (.mainCall sid mp att))
    obtain ⟨r, hr⟩ := hok (by omega)
    have hpair : g mp att (c.logCall (.mainCall sid mp att)) =
        ((g mp att (c.logCall (.mainCall sid mp att))).1, Except.ok r) := by
      rw [← hr]
    refine ⟨(g mp att (c.logCall (.mainCall sid mp att))).1, m.set "result" r, r,
      ?_, ?_, ?_⟩
    · cases fuel with
      | zero => simp only [mainLoop]; rw [hpair]
      | succ fuel' => simp only [mainLoop]; rw [hpair]
    · rw [hev]
      simp [WorkflowContext.logCall, retryEvs]
    · rw [hsp]
      simp [WorkflowContext.logCall]
  | succ n' ih =>
    intro att fuel c m hatt hfuel
    obtain ⟨hev, hsp, hfail, _⟩ := hg mp att (c.logCall (.mainCall sid mp att))
    obtain ⟨e, he⟩ := hfail (by omega)
    have hpair : g mp att (c.logCall (.mainCall sid mp att)) =
        ((g mp att (c.logCall (.mainCall sid mp att))).1, Except.error e) := by
      rw [← he]
    cases fuel with
    | zero => omega
    | succ fuel' =>
      obtain ⟨out, mfin, r, heqr, hev', hsp'⟩ := ih (att + 1) fuel'
        (WorkflowContext.emit_event L
          (g mp att (c.logCall (.mainCall sid mp att))).1
          "progress" (retryingPayload sid))
        ((m.set "error" (.pyStr e.1)).set "traceback" (.pyStr e.2))
        (by omega) (by omega)
      have hemit := emit_tame hL (g mp att (c.logCall (.mainCall sid mp att))).1
        "progress" (retryingPayload sid)
      refine ⟨out, mfin, r, ?_, ?_, ?_⟩
      · have hstep : mainLoop g mp sid L (fuel' + 1) att c m =
            mainLoop g mp sid L fuel' (att + 1)
              (WorkflowContext.emit_event L
                (g mp att (c.logCall (.mainCall sid mp att))).1
                "progress" (retryingPayload sid))
              ((m.set "error" (.pyStr e.1)).set "traceback" (.pyStr e.2)) := by
          simp only [mainLoop]
          rw [hpair]
        exact hstep.trans heqr
      · rw [hev', hemit.1, hev]
        simp [WorkflowContext.logCall, retryEvs, retryingEv, List.replicate_succ]
      · rw [hsp', hemit.2, hsp]
        simp [WorkflowContext.logCall]

/-! ## Step-level characterisations -/

theorem benign_step_run (s : WorkflowStep) (L : Listeners) (hL : IdListeners L)
    (hpre : ∀ f ∈ s.pre_funcs, PureHook f) (hmain : OkMain s.main_func)
    (hpost : ∀ f ∈ s.post_funcs, PureHook f) (c : WorkflowContext)
    (hstop : c.should_stop = false) :
    ∃ out md r, WorkflowStep.run s L c = .ok (out, some r) ∧
      out.data = c.data.set s.step_id md ∧
      out.should_stop = false ∧
      out.current_step_index = c.current_step_index ∧
      out.objects = c.objects ∧
      out.events = c.events ++ stepEvents s ∧
      out.log = c.log ++ benignLog s := by
  set C1 : WorkflowContext :=
    { c with events := c.events ++ [("progress", startedPayload s.step_id s.name)] }
    with hC1
  have hs1 : C1.should_stop = false := hstop
  obtain ⟨m2, h1⟩ := runHooks_pure true s.pre_params s.step_id "pre_result"
    s.pre_funcs hpre C1 (s.initialMetadata.set "pre_result" (PyVal.pyList [])) hs1
  set C2 : WorkflowContext :=
    { C1 with log := C1.log ++ List.replicate s.pre_funcs.length (hookTag true s.step_id s.pre_params) }
    with hC2
  obtain ⟨r, h2⟩ := mainLoop_ok s.main_func hmain s.main_params s.step_id L
    s.max_retries.toNat 0 C2 m2
  set C3 : WorkflowContext :=
    { C2 with log := C2.log ++ [CallEntry.mainCall s.step_id s.main_params 0] }
    with hC3
  have hs3 : C3.should_stop = false := hs1
  obtain ⟨m5, h3⟩ := runHooks_pure false s.post_params s.step_id "post_result"
    s.post_funcs hpost C3 ((m2.set "result" r).set "post_result" (PyVal.pyList []))
    hs3
  set C4 : WorkflowContext :=
    { C3 with log := C3.log ++ List.replicate s.post_funcs.length (hookTag false s.step_id s.post_params) }
    with hC4
  have hrun : s.run L c = Except.ok
      (WorkflowContext.emit_event L (C4.store_step_result s.step_id m5)
        "progress" (completedPayload s.step_id s.name),
       some ((m5.lookup "result").getD PyVal.pyNone)) := by
    simp only [WorkflowStep.run, hstop, Bool.false_eq_true, if_false]
    rw [emit_id hL, ← hC1, h1]
    simp only [Bool.false_eq_true, if_false]
    rw [h2]
    simp only []
    rw [h3]
    simp only [Bool.false_eq_true, if_false]
  refine ⟨WorkflowContext.emit_event L (C4.store_step_result s.step_id m5)
    "progress" (completedPayload s.step_id s.name), m5,
    (m5.lookup "result").getD PyVal.pyNone, hrun, ?_, ?_, ?_, ?_, ?_, ?_⟩
  · simp [emit_id hL, hC4, hC3, hC2, hC1, WorkflowContext.store_step_result]
  · simp [emit_id hL, hC4, hC3, hC2, hC1, WorkflowContext.store_step_result, hstop]
  · simp [emit_id hL, hC4, hC3, hC2, hC1, WorkflowContext.store_step_result]
  · simp [emit_id hL, hC4, hC3, hC2, hC1, WorkflowContext.store_step_result]
  · simp [emit_id hL, hC4, hC3, hC2, hC1, WorkflowContext.store_step_result,
      stepEvents, startedEv, completedEv]
  · simp [emit_id hL, hC4, hC3, hC2, hC1, WorkflowContext.store_step_result,
      benignLog, hookTag]

theorem step_run_fail (s : WorkflowStep) (L : Listeners) (hL : IdListeners L)
    (hpre : ∀ f ∈ s.pre_funcs, PureHook f) (err : Nat → PyErr)
    (hfail : ∀ p n c, s.main_func p n c = (c, .error (err n)))
    (c : WorkflowContext) (hstop : c.should_stop = false) :
    ∃ out mfin, WorkflowStep.run s L c = .ok (out, none) ∧
      out.data = c.data.set s.step_id mfin ∧
      out.should_stop = true ∧
      out.current_step_index = c.current_step_index ∧
      out.objects = c.objects ∧
      out.events = c.events ++ [startedEv s] ++
        retryEvs s.step_id s.max_retries.toNat ++ [failedEv s.step_id] ∧
      out.log = c.log ++
        List.replicate s.pre_funcs.length (hookTag true s.step_id s.pre_params) ++
        mainCalls s.step_id s.main_params 0 (s.max_retries.toNat + 1) ∧
      (mfin.lookup "error").isSome = true ∧
      (mfin.lookup "traceback").isSome = true := by
  set C1 : WorkflowContext :=
    { c with events := c.events ++ [("progress", startedPayload s.step_id s.name)] }
    with hC1
  have hs1 : C1.should_stop = false := hstop
  obtain ⟨m2, h1⟩ := runHooks_pure true s.pre_params s.step_id "pre_result"
    s.pre_funcs hpre C1 (s.initialMetadata.set "pre_result" (PyVal.pyList [])) hs1
  set C2 : WorkflowContext :=
    { C1 with log := C1.log ++ List.replicate s.pre_funcs.length (hookTag true s.step_id s.pre_params) }
    with hC2
  obtain ⟨out, mfin, h2, hdata, hsp, hcur, hobj, hev, hlog, herr, htb⟩ :=
    mainLoop_fail s.main_func s.main_params s.step_id L hL err hfail
      s.max_retries.toNat 0 C2 m2
  have hrun : s.run L c = Except.ok (out, none) := by
    simp only [WorkflowStep.run, hstop, Bool.false_eq_true, if_false]
    rw [emit_id hL, ← hC1, h1]
    simp only [Bool.false_eq_true, if_false]
    rw [h2]
  refine ⟨out, mfin, hrun, ?_, hsp, ?_, ?_, ?_, ?_, ?_, ?_⟩
  · rw [hdata]
  · rw [hcur]
  · rw [hobj]
  · rw [hev]
    simp [hC2, hC1, startedEv]
  · rw [hlog]
  · rw [herr]
    rfl
  · rw [htb]
    rfl

theorem step_run_until (s : WorkflowStep) (L : Listeners) (hL : IdListeners L)
    (hnopre : s.pre_funcs = []) (hnopost : s.post_funcs = [])
    (F : Nat) (err : Nat → PyErr) (res : Nat → PyVal)
    (hg : FailsUntil s.main_func F err res) (hF : F ≤ s.max_retries.toNat)
    (c : WorkflowContext) (hstop : c.should_stop = false) :
    ∃ out mfin, WorkflowStep.run s L c = .ok (out, some (res F)) ∧
      out.data = c.data.set s.step_id mfin ∧
      out.should_stop = false ∧
      out.current_step_index = c.current_step_index ∧
      out.objects = c.objects ∧
      out.events = c.events ++ [startedEv s] ++ retryEvs s.step_id F ++
        [completedEv s] ∧
      out.log = c.log ++ mainCalls s.step_id s.main_params 0 (F + 1) ∧
      mfin.lookup "result" = some (res F) ∧
      (0 < F → mfin.lookup "error" = some (.pyStr (err (F - 1)).1) ∧
        mfin.lookup "traceback" = some (.pyStr (err (F - 1)).2)) ∧
      (F = 0 → mfin = ((s.initialMetadata.set "pre_result" (PyVal.pyList [])).set
        "result" (res 0)).set "post_result" (PyVal.pyList [])) := by
  set C1 : WorkflowContext :=
    { c with events := c.events ++ [("progress", startedPayload s.step_id s.name)] }
    with hC1
  have hs1 : C1.should_stop = false := hstop
  obtain ⟨out0, mfin0, h2, hdata, hsp, hcur, hobj, hev, hlog, hres, hzero, hpos⟩ :=
    mainLoop_until s.main_func F err res hg s.main_params s.step_id L hL F 0
      s.max_retries.toNat C1 (s.initialMetadata.set "pre_result" (PyVal.pyList []))
      (by omega) hF
  have hs0 : out0.should_stop = false := hsp.trans hs1
  have hlook : ((mfin0.set "post_result" (PyVal.pyList [])).lookup "result") =
      some (res F) := by
    rw [PyDict.lookup_set_ne _ _ (by decide)]
    exact hres
  have hrun : s.run L c = Except.ok
      (WorkflowContext.emit_event L
        (out0.store_step_result s.step_id (mfin0.set "post_result" (PyVal.pyList [])))
        "progress" (completedPayload s.step_id s.name),
       some (res F)) := by
    simp only [WorkflowStep.run, hstop, Bool.false_eq_true, if_false, hnopre,
      hnopost, runHooks]
    rw [emit_id hL, ← hC1]
    rw [h2]
    simp only [hs0, Bool.false_eq_true, if_false, hlook]
    rfl
  refine ⟨_, mfin0.set "post_result" (PyVal.pyList []), hrun, ?_, ?_, ?_, ?_, ?_,
    ?_, ?_, ?_, ?_⟩
  · simp only [emit_id hL, WorkflowContext.store_step_result]
    rw [hdata]
  · simp only [emit_id hL, WorkflowContext.store_step_result]
    exact hs0
  · simp only [emit_id hL, WorkflowContext.store_step_result]
    rw [hcur]
  · simp only [emit_id hL, WorkflowContext.store_step_result]
    rw [hobj]
  · simp only [emit_id hL, WorkflowContext.store_step_result]
    rw [hev]
    simp [hC1, startedEv, completedEv]
  · simp only [emit_id hL, WorkflowContext.store_step_result]
    rw [hlog]
  · exact hlook
  · intro hFpos
    have hp := hpos hFpos
    constructor
    · rw [PyDict.lookup_set_ne _ _ (by decide)]
      exact hp.1
    · rw [PyDict.lookup_set_ne _ _ (by decide)]
      exact hp.2
  · intro hF0
    subst hF0
    rw [hzero rfl]

theorem step_run_tame (s : WorkflowStep) (L : Listeners) (hL : TameListeners L)
    (hpre : ∀ f ∈ s.pre_funcs, TameHook f) (hpost : ∀ f ∈ s.post_funcs, TameHook f)
    (F : Nat) (hg : TameMainUntil s.main_func F) (hF : F ≤ s.max_retries.toNat)
    (c : WorkflowContext) (hstop : c.should_stop = false) :
    ∃ out r, WorkflowStep.run s L c = .ok (out, some r) ∧
      out.events = c.events ++ [startedEv s] ++ retryEvs s.step_id F ++
        [completedEv s] ∧
      out.should_stop = false := by
  set C1 : WorkflowContext :=
    WorkflowContext.emit_event L c "progress" (startedPayload s.step_id s.name)
    with hC1
  have hC1t := emit_tame hL c "progress" (startedPayload s.step_id s.name)
  have hs1 : C1.should_stop = false := by rw [hC1]; exact hC1t.2.trans hstop
  obtain ⟨C2, m2, h1, h1ev, h1sp⟩ := runHooks_tame true s.pre_params s.step_id
    "pre_result" s.pre_funcs hpre C1
    (s.initialMetadata.set "pre_result" (PyVal.pyList [])) hs1
  obtain ⟨out3, m3, r, h2, h2ev, h2sp⟩ := mainLoop_tame_until s.main_func F hg
    s.main_params s.step_id L hL F 0 s.max_retries.toNat C2 m2 (by omega) hF
  have hs3 : out3.should_stop = false := by rw [h2sp]; exact h1sp
  obtain ⟨C4, m5, h3, h3ev, h3sp⟩ := runHooks_tame false s.post_params s.step_id
    "post_result" s.post_funcs hpost out3 (m3.set "post_result" (PyVal.pyList []))
    hs3
  have hC5t := emit_tame hL (C4.store_step_result s.step_id m5) "progress"
    (completedPayload s.step_id s.name)
  have hrun : s.run L c = Except.ok
      (WorkflowContext.emit_event L (C4.store_step_result s.step_id m5)
        "progress" (completedPayload s.step_id s.name),
       some ((m5.lookup "result").getD PyVal.pyNone)) := by
    simp only [WorkflowStep.run, hstop, Bool.false_eq_true, if_false]
    rw [← hC1, h1]
    simp only [Bool.false_eq_true, if_false]
    rw [h2]
    simp only []
    rw [h3]
    simp only [Bool.false_eq_true, if_false]
  refine ⟨_, _, hrun, ?_, ?_⟩
  · rw [hC5t.1]
    have hstev : (C4.store_step_result s.step_id m5).events = C4.events := rfl
    rw [hstev, h3ev, h2ev, h1ev, hC1t.1]
    simp [startedEv, completedEv]
  · rw [hC5t.2]
    have hstsp : (C4.store_step_result s.step_id m5).should_stop =
      C4.should_stop := rfl
    rw [hstsp, h3sp]

/-! ## Workflow-loop lemmas -/

theorem runFrom_end (w : Workflow) (L : Listeners) (i : Nat) (c : WorkflowContext)
    (h : w.steps.length ≤ i) : w.runFrom L i c = .ok c := by
  rw [Workflow.runFrom, dif_neg (by omega)]

theorem runFrom_stop (w : Workflow) (L : Listeners) (i : Nat) (c : WorkflowContext)
    (h : c.should_stop = true) : w.runFrom L i c = .ok c := by
  rw [Workflow.runFrom]
  by_cases hi : i < w.steps.length
  · rw [dif_pos hi, h]
    simp
  · rw [dif_neg hi]

theorem runFrom_cons (w : Workflow) (L : Listeners) (i : Nat)
    (h : i < w.steps.length) (c : WorkflowContext) (hstop : c.should_stop = false)
    (out : WorkflowContext) (ret : Option PyVal)
    (hrun : (w.steps.get ⟨i, h⟩).run L c = .ok (out, ret)) :
    w.runFrom L i c = w.runFrom L (i + 1) { out with current_step_index := i + 1 } := by
  rw [Workflow.runFrom, dif_pos h, hstop]
  simp only [Bool.false_eq_true, if_false]
  rw [hrun]

theorem runFrom_error (w : Workflow) (L : Listeners) (i : Nat)
    (h : i < w.steps.length) (c : WorkflowContext) (hstop : c.should_stop = false)
    (e : PyErr) (hrun : (w.steps.get ⟨i, h⟩).run L c = .error e) :
    w.runFrom L i c = .error e := by
  rw [Workflow.runFrom, dif_pos h, hstop]
  simp only [Bool.false_eq_true, if_false]
  rw [hrun]

/-- The loop of `Workflow.run` never reads the steps before its start index:
two workflows of the same length that agree from index `i` on run identically
from `i`. -/
theorem runFrom_congr (ss₁ ss₂ : List WorkflowStep)
    (hlen : ss₁.length = ss₂.length) (L : Listeners) :
    ∀ (n i : Nat), ss₁.length ≤ i + n →
    (∀ j (h1 : i ≤ j) (h2 : j < ss₁.length),
      ss₁.get ⟨j, h2⟩ = ss₂.get ⟨j, hlen ▸ h2⟩) →
    ∀ c, Workflow.runFrom ⟨ss₁⟩ L i c = Workflow.runFrom ⟨ss₂⟩ L i c := by
  intro n
  induction n with
  | zero =>
    intro i hbound hagree c
    rw [runFrom_end _ _ _ _ (show ss₁.length ≤ i by omega),
      runFrom_end _ _ _ _ (show ss₂.length ≤ i by omega)]
  | succ n' ih =>
    intro i hbound hagree c
    by_cases hi : i < ss₁.length
    · cases hsc : c.should_stop with
      | true => rw [runFrom_stop _ _ _ _ hsc, runFrom_stop _ _ _ _ hsc]
      | false =>
        have hi₂ : i < ss₂.length := hlen ▸ hi
        have hstep : ss₂.get ⟨i, hi₂⟩ = ss₁.get ⟨i, hi⟩ := (hagree i le_rfl hi).symm
        cases hr : (ss₁.get ⟨i, hi⟩).run L c with
        | error e =>
          rw [runFrom_error ⟨ss₁⟩ L i hi c hsc e hr,
            runFrom_error ⟨ss₂⟩ L i hi₂ c hsc e (by rw [hstep]; exact hr)]
        | ok o =>
          obtain ⟨o1, o2⟩ := o
          rw [runFrom_cons ⟨ss₁⟩ L i hi c hsc o1 o2 hr,
            runFrom_cons ⟨ss₂⟩ L i hi₂ c hsc o1 o2 (by rw [hstep]; exact hr)]
          exact ih (i + 1) (by omega) (fun j h1 h2 => hagree j (by omega) h2) _
    · rw [runFrom_end _ _ _ _ (show ss₁.length ≤ i by omega),
        runFrom_end _ _ _ _ (show ss₂.length ≤ i by omega)]

theorem size_set_new {α : Type} {d : PyDict α} {k : String}
    (h : d.lookup k = none) (v : α) : (d.set k v).size = d.size + 1 := by
  induction d with
  | nil => rfl
  | cons e t ih =>
    have he : ¬ e.1 = k := by intro hh; simp [PyDict.lookup, hh] at h
    have ht : PyDict.lookup t k = none := by simpa [PyDict.lookup, he] using h
    simp [PyDict.set, he, PyDict.size] at ih ⊢
    exact ih ht

theorem hookTag_sid (pre : Bool) (sid : String) (ps : PyDict PyVal) :
    (hookTag pre sid ps).sid = sid := by
  cases pre <;> rfl

theorem benignLog_sid (s : WorkflowStep) :
    ∀ e ∈ benignLog s, e.sid = s.step_id := by
  intro e he
  simp only [benignLog, List.mem_append] at he
  rcases he with (he | he) | he
  · rw [List.eq_of_mem_replicate he]; rfl
  · rcases List.mem_cons.mp he with he1 | he1
    · rw [he1]; rfl
    · simp at he1
  · rw [List.eq_of_mem_replicate he]; rfl

theorem mainCalls_sid (sid : String) (mp : PyDict PyVal) (att n : Nat) :
    ∀ e ∈ mainCalls sid mp att n, e.sid = sid := by
  intro e he
  simp only [mainCalls, List.mem_map] at he
  obtain ⟨j, _, hj⟩ := he
  rw [← hj]; rfl

/-- A run of consecutive benign steps `i ≤ j < k` of a workflow: the loop
reaches index `k` having completed (and stored) each of those steps in order,
with the stop flag still clear. -/
theorem runFrom_benign_segment (ss : List WorkflowStep) (L : Listeners)
    (hL : IdListeners L) (k : Nat) (hk : k ≤ ss.length) :
    ∀ (n i : Nat), i + n = k →
    ∀ c : WorkflowContext, c.should_stop = false →
    (∀ j (h1 : i ≤ j) (h2 : j < k), BenignStep (ss.get ⟨j, lt_of_lt_of_le h2 hk⟩)) →
    (∀ j (h1 : i ≤ j) (h2 : j < k),
      c.data.lookup (ss.get ⟨j, lt_of_lt_of_le h2 hk⟩).step_id = none) →
    (∀ j j' (h1 : i ≤ j) (h2 : j < j') (h3 : j' < k),
      (ss.get ⟨j, lt_of_lt_of_le (lt_trans h2 h3) hk⟩).step_id ≠
        (ss.get ⟨j', lt_of_lt_of_le h3 hk⟩).step_id) →
    ∃ c', Workflow.runFrom ⟨ss⟩ L i c = Workflow.runFrom ⟨ss⟩ L k c' ∧
      c'.should_stop = false ∧
      c'.current_step_index = (if n = 0 then c.current_step_index else k) ∧
      c'.objects = c.objects ∧
      c'.data.size = c.data.size + n ∧
      (∀ x : String, (∀ j (h1 : i ≤ j) (h2 : j < k),
        x ≠ (ss.get ⟨j, lt_of_lt_of_le h2 hk⟩).step_id) →
        c'.data.lookup x = c.data.lookup x) ∧
      (∀ j (h1 : i ≤ j) (h2 : j < k),
        (c'.data.lookup (ss.get ⟨j, lt_of_lt_of_le h2 hk⟩).step_id).isSome = true) ∧
      c'.events = c.events ++ eventsOfSteps ((ss.drop i).take n) ∧
      (∀ e ∈ c'.log, e ∈ c.log ∨ ∃ j, ∃ h1 : i ≤ j, ∃ h2 : j < k,
        CallEntry.sid e = (ss.get ⟨j, lt_of_lt_of_le h2 hk⟩).step_id) := by
  intro n
  induction n with
  | zero =>
    intro i hik c hstop hb hfresh hdist
    have hik' : i = k := by omega
    subst hik'
    refine ⟨c, rfl, hstop, by simp, rfl, by simp, fun x _ => rfl,
      fun j h1 h2 => absurd h2 (by omega), by simp [eventsOfSteps],
      fun e he => Or.inl he⟩
  | succ n' ih =>
    intro i hik c hstop hb hfresh hdist
    have hi : i < ss.length := by omega
    have hik2 : i < k := by omega
    obtain ⟨hbpre, hbmain, hbpost⟩ := hb i le_rfl hik2
    obtain ⟨out, md, r, hrun, hdata, hsp, hcur, hobj, hev, hlog⟩ :=
      benign_step_run (ss.get ⟨i, hi⟩) L hL hbpre hbmain hbpost c hstop
    have hstep := runFrom_cons ⟨ss⟩ L i hi c hstop out (some r) hrun
    set c2 : WorkflowContext := { out with current_step_index := i + 1 } with hc2
    have hstop2 : c2.should_stop = false := hsp
    have hc2data : c2.data = c.data.set (ss.get ⟨i, hi⟩).step_id md := hdata
    have hfresh2 : ∀ j (h1 : i + 1 ≤ j) (h2 : j < k),
        c2.data.lookup (ss.get ⟨j, lt_of_lt_of_le h2 hk⟩).step_id = none := by
      intro j h1 h2
      rw [hc2data, PyDict.lookup_set_ne _ _
        (hdist i j le_rfl (by omega) h2).symm]
      exact hfresh j (by omega) h2
    obtain ⟨c', hrec, hsp', hcur', hobj', hsize', hpres', hsome', hev', hlg'⟩ :=
      ih (i + 1) (by omega) c2 hstop2 (fun j h1 h2 => hb j (by omega) h2)
        hfresh2 (fun j j' h1 h2 h3 => hdist j j' (by omega) h2 h3)
    have hlist : (ss.drop i).take (n' + 1) =
        ss.get ⟨i, hi⟩ :: (ss.drop (i + 1)).take n' := by
      rw [List.drop_eq_getElem_cons hi, List.take_succ_cons]
      simp [List.get_eq_getElem]
    refine ⟨c', hstep.trans hrec, hsp', ?_, ?_, ?_, ?_, ?_, ?_, ?_⟩
    · have hc2cur : c2.current_step_index = i + 1 := rfl
      rw [hcur', hc2cur]
      by_cases hn : n' = 0
      · simp [hn]
        omega
      · simp [hn]
    · have hc2obj : c2.objects = out.objects := rfl
      rw [hobj', hc2obj, hobj]
    · have h1 : c2.data.size = c.data.size + 1 := by
        rw [hc2data, size_set_new (hfresh i le_rfl hik2)]
      rw [hsize', h1]
      omega
    · intro x hx
      have h2 := hpres' x (fun j h1 h2 => hx j (by omega) h2)
      rw [h2, hc2data, PyDict.lookup_set_ne _ _ (hx i le_rfl hik2)]
    · intro j h1 h2
      rcases Nat.lt_or_ge i j with hj | hj
      · exact hsome' j (by omega) h2
      · have hji : j = i := by omega
        subst hji
        have h3 := hpres' (ss.get ⟨j, lt_of_lt_of_le h2 hk⟩).step_id
          (fun j' h1' h2' => hdist j j' le_rfl (by omega) h2')
        rw [h3, hc2data, PyDict.lookup_set_self]
        rfl
    · have hc2ev : c2.events = out.events := rfl
      rw [hev', hc2ev, hev, hlist]
      simp [eventsOfSteps]
    · intro e he
      rcases hlg' e he with he2 | ⟨j, h1, h2, hsid⟩
      · have hc2log : c2.log = out.log := rfl
        rw [hc2log, hlog] at he2
        rcases List.mem_append.mp he2 with he3 | he3
        · exact Or.inl he3
        · exact Or.inr ⟨i, le_rfl, hik2, benignLog_sid _ e he3⟩
      · exact Or.inr ⟨j, by omega, h2, hsid⟩

/-! ## Claim theorems -/

/-- A main operation that does nothing and returns `None`. -/
def noOpMain : MainFunc := fun _ _ c => (c, Except.ok PyVal.pyNone)

theorem idListeners_nil : IdListeners ([] : Listeners) := by
  intro nm cb hcb
  simp [Listeners.get, PyDict.lookup] at hcb

theorem nodup_step_ids {ss : List WorkflowStep}
    (hnd : (ss.map WorkflowStep.step_id).Nodup) :
    ∀ j j' (h2 : j < j') (h3 : j' < ss.length),
      (ss.get ⟨j, lt_trans h2 h3⟩).step_id ≠ (ss.get ⟨j', h3⟩).step_id := by
  intro j j' h2 h3 heq
  have hinj := List.nodup_iff_injective_get.mp hnd
  have hj : j < (ss.map WorkflowStep.step_id).length := by simp; omega
  have hj' : j' < (ss.map WorkflowStep.step_id).length := by simp; omega
  have h1 : (ss.map WorkflowStep.step_id).get ⟨j, hj⟩ =
      (ss.get ⟨j, lt_trans h2 h3⟩).step_id := by
    simp [List.get_eq_getElem, List.getElem_map]
  have h1' : (ss.map WorkflowStep.step_id).get ⟨j', hj'⟩ =
      (ss.get ⟨j', h3⟩).step_id := by
    simp [List.get_eq_getElem, List.getElem_map]
  have h4 := hinj (h1.trans (heq.trans h1'.symm))
  have h5 : j = j' := by simpa using congrArg Fin.val h4
  omega

/-- C8: object-store round-trip on every context.  `set_object` followed by
`get_object` returns the stored value; `remove_object` followed by
`get_object` returns the absence marker `None`; and on an absent key,
`get_object` returns `None` and `remove_object` leaves the context unchanged
— both are total, so neither raises. -/
theorem C8_object_store_roundtrip (c : WorkflowContext) (k : String) (v : PyVal) :
    (c.set_object k v).get_object k = v ∧
    (c.remove_object k).get_object k = PyVal.pyNone ∧
    (c.objects.lookup k = none →
      c.get_object k = PyVal.pyNone ∧ c.remove_object k = c) := by
  refine ⟨?_, ?_, ?_⟩
  · simp [WorkflowContext.set_object, WorkflowContext.get_object,
      PyDict.lookup_set_self]
  · simp [WorkflowContext.remove_object, WorkflowContext.get_object,
      PyDict.eraseKey_lookup_self]
  · intro h
    constructor
    · simp [WorkflowContext.get_object, h]
    · simp only [WorkflowContext.remove_object, PyDict.eraseKey_of_not_mem h]

/-- Witness for C8 at a concrete context and key. -/
theorem C8_object_store_roundtrip_witness :
    ((WorkflowContext.fresh.set_object "k" (PyVal.pyInt 5)).get_object "k" =
      PyVal.pyInt 5) ∧
    ((WorkflowContext.fresh.remove_object "k").get_object "k" = PyVal.pyNone) ∧
    (WorkflowContext.fresh.get_object "k" = PyVal.pyNone ∧
      WorkflowContext.fresh.remove_object "k" = WorkflowContext.fresh) := by
  have h := C8_object_store_roundtrip WorkflowContext.fresh "k" (PyVal.pyInt 5)
  exact ⟨h.1, h.2.1, h.2.2 rfl⟩

/-- C9: `WorkflowStep` construction pops the reserved key `"max_retries"` out
of the caller's parameter bag (in Python, mutating and storing the same
mapping object): the stored bag no longer binds the key, the retry budget is
the popped value, the engine's metadata record (built from `step_id` plus the
stored bag, and the bag the main operation is invoked with) has no
`max_retries` binding, and a second step constructed from the stored bag
finds the key absent and defaults to a budget of `0`, leaving the bag as is. -/
theorem C9_max_retries_popped (nm : String) (g : MainFunc) (d : PyDict PyVal)
    (sid : String) (pf : List Hook) (pp : PyDict PyVal) (qf : List Hook)
    (qp : PyDict PyVal) (R : Int)
    (hd : d.lookup "max_retries" = some (.pyInt R)) :
    (WorkflowStep.init nm g d sid pf pp qf qp).max_retries = R ∧
    (WorkflowStep.init nm g d sid pf pp qf qp).main_params.lookup "max_retries"
      = none ∧
    (WorkflowStep.init nm g d sid pf pp qf qp).initialMetadata.lookup
      "max_retries" = none ∧
    (WorkflowStep.init nm g
      ((WorkflowStep.init nm g d sid pf pp qf qp).main_params)
      sid pf pp qf qp).max_retries = 0 ∧
    (WorkflowStep.init nm g
      ((WorkflowStep.init nm g d sid pf pp qf qp).main_params)
      sid pf pp qf qp).main_params =
      (WorkflowStep.init nm g d sid pf pp qf qp).main_params := by
  have h1 : (WorkflowStep.init nm g d sid pf pp qf qp).main_params =
      d.eraseKey "max_retries" := by
    simp [WorkflowStep.init, PyDict.pop, hd]
  have h3 : (d.eraseKey "max_retries").lookup "max_retries" = none :=
    PyDict.eraseKey_lookup_self d _
  refine ⟨?_, ?_, ?_, ?_, ?_⟩
  · simp [WorkflowStep.init, PyDict.pop, hd, PyVal.asRetries]
  · rw [h1]
    exact h3
  · simp only [WorkflowStep.initialMetadata]
    rw [h1, PyDict.lookup_setAll_of_not_mem _ h3]
    rfl
  · rw [h1]
    simp [WorkflowStep.init, PyDict.pop, h3, PyVal.asRetries]
  · rw [h1]
    simp [WorkflowStep.init, PyDict.pop, h3]

/-- Witness for C9 at a concrete parameter bag (`max_retries = 3`). -/
theorem C9_max_retries_popped_witness :
    (WorkflowStep.init "s" noOpMain
      [("x", PyVal.pyInt 1), ("max_retries", PyVal.pyInt 3)] "s" [] [] [] []
      ).max_retries = 3 ∧
    (WorkflowStep.init "s" noOpMain
      [("x", PyVal.pyInt 1), ("max_retries", PyVal.pyInt 3)] "s" [] [] [] []
      ).main_params.lookup "max_retries" = none ∧
    (WorkflowStep.init "s" noOpMain
      [("x", PyVal.pyInt 1), ("max_retries", PyVal.pyInt 3)] "s" [] [] [] []
      ).initialMetadata.lookup "max_retries" = none ∧
    (WorkflowStep.init "s" noOpMain
      ((WorkflowStep.init "s" noOpMain
        [("x", PyVal.pyInt 1), ("max_retries", PyVal.pyInt 3)] "s" [] [] [] []
        ).main_params) "s" [] [] [] []).max_retries = 0 ∧
    (WorkflowStep.init "s" noOpMain
      ((WorkflowStep.init "s" noOpMain
        [("x", PyVal.pyInt 1), ("max_retries", PyVal.pyInt 3)] "s" [] [] [] []
        ).main_params) "s" [] [] [] []).main_params =
      (WorkflowStep.init "s" noOpMain
        [("x", PyVal.pyInt 1), ("max_retries", PyVal.pyInt 3)] "s" [] [] [] []
        ).main_params :=
  C9_max_retries_popped "s" noOpMain
    [("x", PyVal.pyInt 1), ("max_retries", PyVal.pyInt 3)] "s" [] [] [] [] 3 rfl

/-- C7: a workflow of `N` steps run on a fresh context, where every step is
benign (its hooks do not touch the context, its main operation always
succeeds — so no failure and no stop request occurs) and the caller-supplied
step ids are distinct as the data model stipulates: after `run` returns, the
resume cursor equals `N` and the results map holds exactly `N` entries. -/
theorem C7_full_run_cursor_and_results (ss : List WorkflowStep)
    (hb : ∀ s ∈ ss, BenignStep s)
    (hnd : (ss.map WorkflowStep.step_id).Nodup) :
    ∃ c', Workflow.run ⟨ss⟩ [] (some WorkflowContext.fresh) = .ok c' ∧
      c'.current_step_index = ss.length ∧
      c'.data.size = ss.length := by
  obtain ⟨c', hrec, hsp', hcur', hobj', hsize', hpres', hsome', hev', hlg'⟩ :=
    runFrom_benign_segment ss [] idListeners_nil ss.length le_rfl ss.length 0
      (by omega) WorkflowContext.fresh rfl
      (fun j h1 h2 => hb _ (List.get_mem ss j (lt_of_lt_of_le h2 le_rfl)))
      (fun j h1 h2 => rfl)
      (fun j j' h1 h2 h3 => nodup_step_ids hnd j j' h2 (lt_of_lt_of_le h3 le_rfl))
  have hrun0 : Workflow.run ⟨ss⟩ [] (some WorkflowContext.fresh) =
      Workflow.runFrom ⟨ss⟩ [] 0 WorkflowContext.fresh := rfl
  refine ⟨c', ?_, ?_, ?_⟩
  · rw [hrun0, hrec, runFrom_end _ _ _ _ (show ss.length ≤ ss.length from le_rfl)]
  · rw [hcur']
    by_cases h0 : ss.length = 0
    · simp [h0]
      rfl
    · simp [h0]
  · rw [hsize']
    simp [WorkflowContext.fresh, PyDict.size]

/-- A trivial benign step used by witnesses. -/
def benignDemoStep (sid : String) : WorkflowStep :=
  { name := sid, main_func := noOpMain, main_params := [], step_id := sid,
    pre_funcs := [], pre_params := [], post_funcs := [], post_params := [],
    max_retries := 0 }

theorem benignDemoStep_benign (sid : String) : BenignStep (benignDemoStep sid) := by
  refine ⟨?_, ?_, ?_⟩
  · intro f hf
    simp [benignDemoStep] at hf
  · intro p n c
    exact ⟨PyVal.pyNone, rfl⟩
  · intro f hf
    simp [benignDemoStep] at hf

/-- Witness for C7 on a concrete two-step workflow. -/
theorem C7_full_run_cursor_and_results_witness :
    ∃ c', Workflow.run ⟨[benignDemoStep "a", benignDemoStep "b"]⟩ []
        (some WorkflowContext.fresh) = .ok c' ∧
      c'.current_step_index = [benignDemoStep "a", benignDemoStep "b"].length ∧
      c'.data.size = [benignDemoStep "a", benignDemoStep "b"].length := by
  apply C7_full_run_cursor_and_results
  · intro s hs
    simp only [List.mem_cons, List.not_mem_nil, or_false] at hs
    rcases hs with h | h
    · exact h ▸ benignDemoStep_benign "a"
    · exact h ▸ benignDemoStep_benign "b"
  · simp [benignDemoStep]

/-- C1: on a fresh context (no listeners, empty results, cursor 0), with
steps `0..k-1` benign (pure hooks, succeeding main operations — they
"complete normally"), step `k` with pure pre-hooks and a main operation that
raises on every invocation, and the workflow's step ids distinct: after
`Workflow.run` returns, the stop flag is set, the results map has exactly
`k + 1` entries — one per step `0..k`, step `k`'s holding `error` and
`traceback` — the resume cursor is `k + 1`, and every pre-hook, main or
post-hook invocation the engine made belongs to a step of index at most `k`
(so no later step's callables ever run). -/
theorem C1_retry_exhaustion_halts (ss : List WorkflowStep) (k : Nat)
    (hk : k < ss.length)
    (hnd : (ss.map WorkflowStep.step_id).Nodup)
    (hb : ∀ j (hj : j < k), BenignStep (ss.get ⟨j, lt_trans hj hk⟩))
    (hpre : ∀ f ∈ (ss.get ⟨k, hk⟩).pre_funcs, PureHook f)
    (err : Nat → PyErr)
    (hfail : ∀ p n c, (ss.get ⟨k, hk⟩).main_func p n c = (c, .error (err n))) :
    ∃ c', Workflow.run ⟨ss⟩ [] (some WorkflowContext.fresh) = .ok c' ∧
      c'.should_stop = true ∧
      c'.data.size = k + 1 ∧
      (∀ j (hj : j ≤ k),
        (c'.data.lookup (ss.get ⟨j, lt_of_le_of_lt hj hk⟩).step_id).isSome
          = true) ∧
      (∃ m, c'.data.lookup (ss.get ⟨k, hk⟩).step_id = some m ∧
        (m.lookup "error").isSome = true ∧ (m.lookup "traceback").isSome = true) ∧
      c'.current_step_index = k + 1 ∧
      (∀ e ∈ c'.log, ∃ j, ∃ hj : j ≤ k,
        CallEntry.sid e = (ss.get ⟨j, lt_of_le_of_lt hj hk⟩).step_id) := by
  obtain ⟨c1, hrec, hsp1, hcur1, hobj1, hsize1, hpres1, hsome1, hev1, hlg1⟩ :=
    runFrom_benign_segment ss [] idListeners_nil k (le_of_lt hk) k 0 (by omega)
      WorkflowContext.fresh rfl (fun j h1 h2 => hb j h2)
      (fun j h1 h2 => rfl)
      (fun j j' h1 h2 h3 => nodup_step_ids hnd j j' h2 (lt_trans h3 hk))
  obtain ⟨out, mfin, hrunk, hdata, hsp, hcur, hobj, hev, hlog, herr, htb⟩ :=
    step_run_fail (ss.get ⟨k, hk⟩) [] idListeners_nil hpre err hfail c1 hsp1
  have hstep := runFrom_cons ⟨ss⟩ [] k hk c1 hsp1 out none hrunk
  have hbreak : Workflow.runFrom ⟨ss⟩ [] (k + 1)
      { out with current_step_index := k + 1 } =
      .ok { out with current_step_index := k + 1 } :=
    runFrom_stop _ _ _ _ hsp
  have hfreshk : c1.data.lookup (ss.get ⟨k, hk⟩).step_id = none := by
    rw [hpres1 _ (fun j h1 h2 => (nodup_step_ids hnd j k h2 hk).symm)]
    rfl
  refine ⟨{ out with current_step_index := k + 1 }, ?_, hsp, ?_, ?_, ?_, rfl, ?_⟩
  · have hrun0 : Workflow.run ⟨ss⟩ [] (some WorkflowContext.fresh) =
        Workflow.runFrom ⟨ss⟩ [] 0 WorkflowContext.fresh := rfl
    rw [hrun0, hrec, hstep, hbreak]
  · show out.data.size = k + 1
    rw [hdata, size_set_new hfreshk, hsize1]
    simp [WorkflowContext.fresh, PyDict.size]
  · intro j hj
    show (out.data.lookup (ss.get ⟨j, lt_of_le_of_lt hj hk⟩).step_id).isSome
      = true
    rcases Nat.lt_or_ge j k with hlt | hge
    · rw [hdata, PyDict.lookup_set_ne _ _ (nodup_step_ids hnd j k hlt hk)]
      exact hsome1 j (by omega) hlt
    · have hjk : j = k := by omega
      subst hjk
      rw [hdata, PyDict.lookup_set_self]
      rfl
  · refine ⟨mfin, ?_, herr, htb⟩
    show out.data.lookup (ss.get ⟨k, hk⟩).step_id = some mfin
    rw [hdata, PyDict.lookup_set_self]
  · intro e he
    have he2 : e ∈ out.log := he
    rw [hlog] at he2
    rcases List.mem_append.mp he2 with he3 | he3
    · rcases List.mem_append.mp he3 with he4 | he4
      · rcases hlg1 e he4 with h5 | ⟨j, h1, h2, hsid⟩
        · simp [WorkflowContext.fresh] at h5
        · exact ⟨j, le_of_lt h2, hsid⟩
      · refine ⟨k, le_rfl, ?_⟩
        rw [List.eq_of_mem_replicate he4, hookTag_sid]
    · exact ⟨k, le_rfl, mainCalls_sid _ _ _ _ e he3⟩

/-- Witness for C1: a three-step workflow whose middle step (index 1)
always fails with `max_retries = 0`; step 2 never executes. -/
theorem C1_retry_exhaustion_halts_witness :
    ∃ c', Workflow.run ⟨[benignDemoStep "a",
        { name := "b", main_func := fun _ n _c => (_c, .error ("boom", "tb")),
          main_params := [], step_id := "b", pre_funcs := [], pre_params := [],
          post_funcs := [], post_params := [], max_retries := 0 },
        benignDemoStep "z"]⟩ [] (some WorkflowContext.fresh) = .ok c' ∧
      c'.should_stop = true ∧
      c'.data.size = 1 + 1 ∧
      (∀ j (hj : j ≤ 1),
        (c'.data.lookup (([benignDemoStep "a",
            { name := "b", main_func := fun _ n _c => (_c, .error ("boom", "tb")),
              main_params := [], step_id := "b", pre_funcs := [], pre_params := [],
              post_funcs := [], post_params := [], max_retries := 0 },
            benignDemoStep "z"].get ⟨j, by simp; omega⟩).step_id)).isSome = true) ∧
      (∃ m, c'.data.lookup "b" = some m ∧
        (m.lookup "error").isSome = true ∧ (m.lookup "traceback").isSome = true) ∧
      c'.current_step_index = 1 + 1 ∧
      (∀ e ∈ c'.log, ∃ j, ∃ hj : j ≤ 1,
        CallEntry.sid e = (([benignDemoStep "a",
            { name := "b", main_func := fun _ n _c => (_c, .error ("boom", "tb")),
              main_params := [], step_id := "b", pre_funcs := [], pre_params := [],
              post_funcs := [], post_params := [], max_retries := 0 },
            benignDemoStep "z"].get ⟨j, by simp; omega⟩).step_id)) := by
  have h := C1_retry_exhaustion_halts
    [benignDemoStep "a",
      { name := "b", main_func := fun _ n _c => (_c, .error ("boom", "tb")),
        main_params := [], step_id := "b", pre_funcs := [], pre_params := [],
        post_funcs := [], post_params := [], max_retries := 0 },
      benignDemoStep "z"] 1 (by simp)
    (by simp [benignDemoStep])
    (by intro j hj
        interval_cases j
        exact benignDemoStep_benign "a")
    (by intro f hf
        simp at hf)
    (fun _ => ("boom", "tb"))
    (fun p n c => rfl)
  exact h

/-- C2: a step constructed with `max_retries = R` in its main parameter bag
(the budget is extracted at construction) whose main operation raises on
every invocation: `WorkflowStep.run` invokes the main operation exactly
`R + 1` times (counted in the instrumentation call log), records the failure
in the results map (the persisted record holds the error), and returns the
absence value `None`. -/
theorem C2_retry_count (nm : String) (g : MainFunc) (d : PyDict PyVal)
    (sid : String) (pf : List Hook) (pp qp : PyDict PyVal) (qf : List Hook)
    (R : Nat) (hd : d.lookup "max_retries" = some (.pyInt (R : Int)))
    (hpf : ∀ f ∈ pf, PureHook f)
    (err : Nat → PyErr) (hg : ∀ p n c, g p n c = (c, .error (err n)))
    (L : Listeners) (hL : IdListeners L) (c : WorkflowContext)
    (hstop : c.should_stop = false) :
    ∃ out mfin,
      (WorkflowStep.init nm g d sid pf pp qf qp).run L c = .ok (out, none) ∧
      out.log.countP CallEntry.isMain = c.log.countP CallEntry.isMain + (R + 1) ∧
      out.data.lookup sid = some mfin ∧
      (mfin.lookup "error").isSome = true := by
  have hmr : (WorkflowStep.init nm g d sid pf pp qf qp).max_retries = (R : Int) := by
    simp [WorkflowStep.init, PyDict.pop, hd, PyVal.asRetries]
  have hpre' : ∀ f ∈ (WorkflowStep.init nm g d sid pf pp qf qp).pre_funcs,
      PureHook f := hpf
  have hg' : ∀ p n cc, (WorkflowStep.init nm g d sid pf pp qf qp).main_func p n cc
      = (cc, .error (err n)) := hg
  obtain ⟨out, mfin, hrun, hdata, hsp, hcur, hobj, hev, hlog, herr, htb⟩ :=
    step_run_fail (WorkflowStep.init nm g d sid pf pp qf qp) L hL hpre' err hg'
      c hstop
  have hsid : (WorkflowStep.init nm g d sid pf pp qf qp).step_id = sid := rfl
  have htoNat : (WorkflowStep.init nm g d sid pf pp qf qp).max_retries.toNat = R := by
    rw [hmr]
    exact Int.toNat_natCast R
  refine ⟨out, mfin, hrun, ?_, ?_, herr⟩
  · rw [hlog]
    have hz : List.countP CallEntry.isMain
        (List.replicate (WorkflowStep.init nm g d sid pf pp qf qp).pre_funcs.length
          (hookTag true (WorkflowStep.init nm g d sid pf pp qf qp).step_id
            (WorkflowStep.init nm g d sid pf pp qf qp).pre_params)) = 0 := by
      rw [List.countP_eq_zero]
      intro a ha
      rw [List.eq_of_mem_replicate ha]
      simp [hookTag, CallEntry.isMain]
    have hall : ∀ a ∈ mainCalls (WorkflowStep.init nm g d sid pf pp qf qp).step_id
        (WorkflowStep.init nm g d sid pf pp qf qp).main_params 0
        ((WorkflowStep.init nm g d sid pf pp qf qp).max_retries.toNat + 1),
        CallEntry.isMain a = true := by
      intro a ha
      simp only [mainCalls, List.mem_map] at ha
      obtain ⟨j, _, hj⟩ := ha
      rw [← hj]
      rfl
    have hfull : List.countP CallEntry.isMain
        (mainCalls (WorkflowStep.init nm g d sid pf pp qf qp).step_id
          (WorkflowStep.init nm g d sid pf pp qf qp).main_params 0
          ((WorkflowStep.init nm g d sid pf pp qf qp).max_retries.toNat + 1)) =
        (WorkflowStep.init nm g d sid pf pp qf qp).max_retries.toNat + 1 := by
      rw [List.countP_eq_length.mpr hall]
      simp [mainCalls]
    rw [List.countP_append, List.countP_append, hz, hfull, htoNat]
    omega
  · rw [hsid] at hdata
    rw [hdata, PyDict.lookup_set_self]

/-- Witness for C2 with `R = 2`: the always-failing main operation is called
exactly three times. -/
theorem C2_retry_count_witness :
    ∃ out mfin,
      (WorkflowStep.init "b" (fun _ n _c => (_c, .error ("boom", "tb")))
        [("max_retries", PyVal.pyInt ((2 : Nat) : Int))] "b" [] [] [] []).run []
        WorkflowContext.fresh = .ok (out, none) ∧
      out.log.countP CallEntry.isMain =
        WorkflowContext.fresh.log.countP CallEntry.isMain + (2 + 1) ∧
      out.data.lookup "b" = some mfin ∧
      (mfin.lookup "error").isSome = true := by
  exact C2_retry_count "b" (fun _ n _c => (_c, .error ("boom", "tb")))
    [("max_retries", PyVal.pyInt ((2 : Nat) : Int))] "b" [] [] [] [] 2 rfl
    (by intro f hf; simp at hf)
    (fun _ => ("boom", "tb")) (fun p n c => rfl)
    [] idListeners_nil WorkflowContext.fresh rfl

/-- A main operation that fails on its first invocation and succeeds (with
`42`) from the second invocation on. -/
def retryOnceMain : MainFunc := fun _ n c =>
  (c, match n with
      | 0 => .error ("boom", "tb0")
      | _ => .ok (.pyInt 42))

/-- A step around `retryOnceMain` with `max_retries = 1` and no hooks. -/
def retryOnceStep : WorkflowStep :=
  WorkflowStep.init "b" retryOnceMain [("max_retries", PyVal.pyInt 1)] "b"
    [] [] [] []

/-- The context of a successful `WorkflowStep.run` result. -/
def okCtx (x : Except PyErr (WorkflowContext × Option PyVal)) : WorkflowContext :=
  match x with
  | .ok o => o.1
  | .error _ => WorkflowContext.fresh

/-- The return value of a successful `WorkflowStep.run` result. -/
def okRet (x : Except PyErr (WorkflowContext × Option PyVal)) : Option PyVal :=
  match x with
  | .ok o => o.2
  | .error _ => none

/-- C3 counterexample: a step whose main operation fails on its first attempt
and succeeds on the retry.  The step completes successfully (returning `42`),
yet the record persisted through `store_step_result` still contains the
`error` and `traceback` fields written during the failed attempt — the code
records them on every failed attempt and never removes them, so they are not
"present only on terminal failure" as the claim states. -/
theorem C3_counterexample :
    okRet (retryOnceStep.run [] WorkflowContext.fresh) = some (PyVal.pyInt 42) ∧
    (((okCtx (retryOnceStep.run [] WorkflowContext.fresh)).data.lookup
      "b").getD []).lookup "error" = some (.pyStr "boom") ∧
    (((okCtx (retryOnceStep.run [] WorkflowContext.fresh)).data.lookup
      "b").getD []).lookup "traceback" = some (.pyStr "tb0") := by
  exact ⟨rfl, rfl, rfl⟩

/-- C3 amended: `error` and `traceback` are written into the metadata record
at every failed attempt and never removed.  For a step with no hooks whose
parameters bind neither key and whose main operation fails on exactly its
first `F` attempts within the retry budget: the persisted record contains
`error` and `traceback` iff at least one attempt failed (`0 < F`), alongside
`result`; only a step succeeding on its first attempt persists a record
without them. -/
theorem C3_amended_error_persists (s : WorkflowStep) (L : Listeners)
    (hL : IdListeners L) (hnopre : s.pre_funcs = []) (hnopost : s.post_funcs = [])
    (F : Nat) (err : Nat → PyErr) (res : Nat → PyVal)
    (hg : FailsUntil s.main_func F err res) (hF : F ≤ s.max_retries.toNat)
    (hpe : s.main_params.lookup "error" = none)
    (hpt : s.main_params.lookup "traceback" = none)
    (c : WorkflowContext) (hstop : c.should_stop = false) :
    ∃ out m, s.run L c = .ok (out, some (res F)) ∧
      out.data.lookup s.step_id = some m ∧
      m.lookup "result" = some (res F) ∧
      (0 < F → (m.lookup "error").isSome = true ∧
        (m.lookup "traceback").isSome = true) ∧
      (F = 0 → m.lookup "error" = none ∧ m.lookup "traceback" = none) := by
  obtain ⟨out, mfin, hrun, hdata, hsp, hcur, hobj, hev, hlog, hres, hpos, hzero⟩ :=
    step_run_until s L hL hnopre hnopost F err res hg hF c hstop
  refine ⟨out, mfin, hrun, ?_, hres, ?_, ?_⟩
  · rw [hdata, PyDict.lookup_set_self]
  · intro h
    obtain ⟨h1, h2⟩ := hpos h
    exact ⟨by rw [h1]; rfl, by rw [h2]; rfl⟩
  · intro h0
    rw [hzero h0]
    constructor
    · rw [PyDict.lookup_set_ne _ _ (by decide), PyDict.lookup_set_ne _ _ (by decide),
        PyDict.lookup_set_ne _ _ (by decide)]
      simp only [WorkflowStep.initialMetadata]
      rw [PyDict.lookup_setAll_of_not_mem _ hpe]
      rfl
    · rw [PyDict.lookup_set_ne _ _ (by decide), PyDict.lookup_set_ne _ _ (by decide),
        PyDict.lookup_set_ne _ _ (by decide)]
      simp only [WorkflowStep.initialMetadata]
      rw [PyDict.lookup_setAll_of_not_mem _ hpt]
      rfl

/-- Witness for the amended C3 at the concrete fail-once-then-succeed step. -/
theorem C3_amended_error_persists_witness :
    ∃ out m, retryOnceStep.run [] WorkflowContext.fresh =
        .ok (out, some (PyVal.pyInt 42)) ∧
      out.data.lookup retryOnceStep.step_id = some m ∧
      m.lookup "result" = some (PyVal.pyInt 42) ∧
      ((0 : Nat) < 1 → (m.lookup "error").isSome = true ∧
        (m.lookup "traceback").isSome = true) ∧
      ((1 : Nat) = 0 → m.lookup "error" = none ∧ m.lookup "traceback" = none) :=
  C3_amended_error_persists retryOnceStep [] idListeners_nil rfl rfl 1
    (fun _ => ("boom", "tb0")) (fun _ => PyVal.pyInt 42)
    (by intro p n c
        cases n with
        | zero => rfl
        | succ n' => rfl)
    le_rfl rfl rfl WorkflowContext.fresh rfl

/-- C6: resuming a context with cursor `c₀` and a cleared stop flag runs
exactly the steps `c₀ .. N-1`, in list order, and never re-executes a step
below the cursor.  With the steps from the cursor on benign (so nothing stops
the loop) and distinct ids: the loop completes with cursor `N`; the event
trace extends by exactly one `started`/`completed` pair per step `c₀ .. N-1`
in list order; every callable invocation recorded during the run belongs to a
step of index at least `c₀`; and the result does not depend on the steps
below the cursor at all — replacing them by any other prefix of the same
length leaves the run's outcome unchanged. -/
theorem C6_resume_runs_suffix_only (ss : List WorkflowStep) (L : Listeners)
    (hL : IdListeners L) (c : WorkflowContext)
    (hstop : c.should_stop = false)
    (hcur : c.current_step_index ≤ ss.length)
    (hb : ∀ j (h1 : c.current_step_index ≤ j) (h2 : j < ss.length),
      BenignStep (ss.get ⟨j, h2⟩))
    (hfresh : ∀ j (h1 : c.current_step_index ≤ j) (h2 : j < ss.length),
      c.data.lookup (ss.get ⟨j, h2⟩).step_id = none)
    (hnd : (ss.map WorkflowStep.step_id).Nodup) :
    ∃ c', Workflow.run ⟨ss⟩ L (some c) = .ok c' ∧
      c'.current_step_index = ss.length ∧
      c'.events = c.events ++ eventsOfSteps (ss.drop c.current_step_index) ∧
      (∀ e ∈ c'.log, e ∈ c.log ∨ ∃ j, ∃ h1 : c.current_step_index ≤ j,
        ∃ h2 : j < ss.length, CallEntry.sid e = (ss.get ⟨j, h2⟩).step_id) ∧
      (∀ tt : List WorkflowStep, tt.length = c.current_step_index →
        Workflow.run ⟨tt ++ ss.drop c.current_step_index⟩ L (some c) =
          Workflow.run ⟨ss⟩ L (some c)) := by
  obtain ⟨c', hrec, hsp', hcur', hobj', hsize', hpres', hsome', hev', hlg'⟩ :=
    runFrom_benign_segment ss L hL ss.length le_rfl
      (ss.length - c.current_step_index) c.current_step_index (by omega) c hstop
      (fun j h1 h2 => hb j h1 h2)
      (fun j h1 h2 => hfresh j h1 h2)
      (fun j j' h1 h2 h3 => nodup_step_ids hnd j j' h2 h3)
  have hrun0 : Workflow.run ⟨ss⟩ L (some c) =
      Workflow.runFrom ⟨ss⟩ L c.current_step_index c := rfl
  have hdropfull : (ss.drop c.current_step_index).take
      (ss.length - c.current_step_index) = ss.drop c.current_step_index := by
    have hlen : (ss.drop c.current_step_index).length =
        ss.length - c.current_step_index := by simp
    rw [← hlen, List.take_length]
  refine ⟨c', ?_, ?_, ?_, ?_, ?_⟩
  · rw [hrun0, hrec, runFrom_end _ _ _ _ (show ss.length ≤ ss.length from le_rfl)]
  · rw [hcur']
    by_cases h0 : ss.length - c.current_step_index = 0
    · simp [h0]
      omega
    · simp [h0]
  · rw [hev', hdropfull]
  · exact hlg'
  · intro tt htt
    have hlen2 : (tt ++ ss.drop c.current_step_index).length = ss.length := by
      simp [htt]
      omega
    have hagree : ∀ j (h1 : c.current_step_index ≤ j)
        (h2 : j < (tt ++ ss.drop c.current_step_index).length),
        (tt ++ ss.drop c.current_step_index).get ⟨j, h2⟩ =
          ss.get ⟨j, hlen2 ▸ h2⟩ := by
      intro j h1 h2
      have hj : j < ss.length := hlen2 ▸ h2
      have hjt : tt.length ≤ j := by omega
      rw [List.get_eq_getElem, List.get_eq_getElem]
      rw [List.getElem_append_right hjt]
      rw [List.getElem_drop]
      congr 1
      show c.current_step_index + (j - tt.length) = j
      omega
    have hcong := runFrom_congr (tt ++ ss.drop c.current_step_index) ss hlen2 L
      ((tt ++ ss.drop c.current_step_index).length) c.current_step_index
      (by omega) hagree c
    have hrun1 : Workflow.run ⟨tt ++ ss.drop c.current_step_index⟩ L (some c) =
        Workflow.runFrom ⟨tt ++ ss.drop c.current_step_index⟩ L
          c.current_step_index c := rfl
    rw [hrun1, hrun0, hcong]

/-- Witness for C6: a two-step workflow resumed from cursor 1 (step "a"
already recorded) runs only step "b". -/
theorem C6_resume_runs_suffix_only_witness :
    ∃ c', Workflow.run ⟨[benignDemoStep "a", benignDemoStep "b"]⟩ []
        (some ⟨[("a", [])], false, 1, [], [], []⟩) = .ok c' ∧
      c'.current_step_index = 2 ∧
      c'.events = eventsOfSteps [benignDemoStep "b"] ∧
      (∀ e ∈ c'.log, e ∈ ([] : List CallEntry) ∨ ∃ j, ∃ h1 : 1 ≤ j,
        ∃ h2 : j < 2,
        CallEntry.sid e =
          ([benignDemoStep "a", benignDemoStep "b"].get ⟨j, h2⟩).step_id) ∧
      (∀ tt : List WorkflowStep, tt.length = 1 →
        Workflow.run ⟨tt ++ [benignDemoStep "b"]⟩ []
            (some ⟨[("a", [])], false, 1, [], [], []⟩) =
          Workflow.run ⟨[benignDemoStep "a", benignDemoStep "b"]⟩ []
            (some ⟨[("a", [])], false, 1, [], [], []⟩)) := by
  exact C6_resume_runs_suffix_only [benignDemoStep "a", benignDemoStep "b"] []
    idListeners_nil ⟨[("a", [])], false, 1, [], [], []⟩ rfl (by decide)
    (by intro j h1 h2
        have h1' : 1 ≤ j := h1
        have h2' : j < 2 := h2
        have hj : j = 1 := by omega
        subst hj
        exact benignDemoStep_benign "b")
    (by intro j h1 h2
        have h1' : 1 ≤ j := h1
        have h2' : j < 2 := h2
        have hj : j = 1 := by omega
        subst hj
        rfl)
    (by simp [benignDemoStep])

/-- A hook that always raises the given exception. -/
def raisingHook (e : PyErr) : Hook := fun _ _ _ => .error e

/-- A step whose hooks never raise. -/
def NoRaiseStep (s : WorkflowStep) : Prop :=
  (∀ f ∈ s.pre_funcs, NoRaiseHook f) ∧ (∀ f ∈ s.post_funcs, NoRaiseHook f)

theorem step_run_noRaise (s : WorkflowStep) (hs : NoRaiseStep s) (L : Listeners)
    (c : WorkflowContext) : ∃ o, s.run L c = .ok o := by
  by_cases hstop : c.should_stop = true
  · exact ⟨(c, none), by simp only [WorkflowStep.run, hstop, if_true]⟩
  · have hstop' : c.should_stop = false := by
      revert hstop
      cases c.should_stop <;> simp
    obtain ⟨⟨cB, m2, stoppedPre⟩, h1⟩ := runHooks_noRaise true s.pre_params
      s.step_id "pre_result" s.pre_funcs hs.1
      (WorkflowContext.emit_event L c "progress" (startedPayload s.step_id s.name))
      (s.initialMetadata.set "pre_result" (PyVal.pyList []))
    by_cases hsp : stoppedPre = true
    · refine ⟨(cB, none), ?_⟩
      simp only [WorkflowStep.run, hstop', Bool.false_eq_true, if_false]
      rw [h1, hsp]
      simp
    · have hsp' : stoppedPre = false := by
        revert hsp
        cases stoppedPre <;> simp
      rcases hml : mainLoop s.main_func s.main_params s.step_id L
          s.max_retries.toNat 0 cB m2 with ⟨cC, m3, ret⟩
      cases ret with
      | none =>
        refine ⟨(cC, none), ?_⟩
        simp only [WorkflowStep.run, hstop', Bool.false_eq_true, if_false]
        rw [h1, hsp']
        simp only [Bool.false_eq_true, if_false]
        rw [hml]
      | some rv =>
        obtain ⟨⟨cD, m5, stoppedPost⟩, h3⟩ := runHooks_noRaise false s.post_params
          s.step_id "post_result" s.post_funcs hs.2 cC
          (m3.set "post_result" (PyVal.pyList []))
        by_cases hpp : stoppedPost = true
        · refine ⟨(cD, none), ?_⟩
          simp only [WorkflowStep.run, hstop', Bool.false_eq_true, if_false]
          rw [h1, hsp']
          simp only [Bool.false_eq_true, if_false]
          rw [hml]
          simp only []
          rw [h3, hpp]
          simp
        · have hpp' : stoppedPost = false := by
            revert hpp
            cases stoppedPost <;> simp
          refine ⟨(WorkflowContext.emit_event L
            (cD.store_step_result s.step_id m5) "progress"
            (completedPayload s.step_id s.name),
            some ((m5.lookup "result").getD PyVal.pyNone)), ?_⟩
          simp only [WorkflowStep.run, hstop', Bool.false_eq_true, if_false]
          rw [h1, hsp']
          simp only [Bool.false_eq_true, if_false]
          rw [hml]
          simp only []
          rw [h3, hpp']
          simp only [Bool.false_eq_true, if_false]

theorem runFrom_noRaise (ss : List WorkflowStep)
    (hss : ∀ s ∈ ss, NoRaiseStep s) (L : Listeners) :
    ∀ (n i : Nat), ss.length ≤ i + n → ∀ c : WorkflowContext,
    ∃ c', Workflow.runFrom ⟨ss⟩ L i c = .ok c' := by
  intro n
  induction n with
  | zero =>
    intro i h c
    exact ⟨c, runFrom_end _ _ _ _ (show ss.length ≤ i by omega)⟩
  | succ n' ih =>
    intro i h c
    by_cases hi : i < ss.length
    · cases hsc : c.should_stop with
      | true => exact ⟨c, runFrom_stop _ _ _ _ hsc⟩
      | false =>
        obtain ⟨⟨out, ret⟩, hrun⟩ := step_run_noRaise (ss.get ⟨i, hi⟩)
          (hss _ (List.get_mem ss i hi)) L c
        obtain ⟨c', hc'⟩ := ih (i + 1) (by omega)
          { out with current_step_index := i + 1 }
        exact ⟨c', (runFrom_cons ⟨ss⟩ L i hi c hsc out ret hrun).trans hc'⟩
    · exact ⟨c, runFrom_end _ _ _ _ (show ss.length ≤ i by omega)⟩

theorem step_run_preRaise (s : WorkflowStep) (L : Listeners) (e : PyErr)
    (f : Hook) (fs : List Hook) (hpre : s.pre_funcs = f :: fs)
    (hf : ∀ p c m, f p c m = .error e)
    (c : WorkflowContext) (hstop : c.should_stop = false) :
    s.run L c = .error e := by
  simp only [WorkflowStep.run, hstop, Bool.false_eq_true, if_false, hpre,
    runHooks]
  rw [hf]

theorem step_run_postRaise (s : WorkflowStep) (L : Listeners) (e : PyErr)
    (hnopre : s.pre_funcs = []) (hmain : OkMain s.main_func)
    (g : Hook) (gs : List Hook) (hpost : s.post_funcs = g :: gs)
    (hg : ∀ p c m, g p c m = .error e)
    (c : WorkflowContext) (hstop : c.should_stop = false) :
    s.run L c = .error e := by
  obtain ⟨r, hml⟩ := mainLoop_ok s.main_func hmain s.main_params s.step_id L
    s.max_retries.toNat 0
    (WorkflowContext.emit_event L c "progress" (startedPayload s.step_id s.name))
    (s.initialMetadata.set "pre_result" (PyVal.pyList []))
  simp only [WorkflowStep.run, hstop, Bool.false_eq_true, if_false, hnopre,
    runHooks]
  rw [hml]
  simp only [hpost, runHooks, hg]

/-- C4: exception propagation across the step/workflow boundary.  (1) A step
whose hooks never raise always returns normally, whatever its main operation
does — a main-operation exception is consumed by the engine's retry handler
and never escapes `WorkflowStep.run`; (2) hence a workflow of such steps
always returns a context, never an exception; (3) an exception raised by a
pre-hook is not caught: it escapes `WorkflowStep.run` and `Workflow.run`;
(4) likewise an exception raised by a post-hook escapes `WorkflowStep.run`. -/
theorem C4_exception_boundary :
    (∀ (s : WorkflowStep), NoRaiseStep s → ∀ (L : Listeners) (c : WorkflowContext),
      ∃ o, s.run L c = .ok o) ∧
    (∀ (ss : List WorkflowStep), (∀ s ∈ ss, NoRaiseStep s) →
      ∀ (L : Listeners) (c : WorkflowContext),
      ∃ c', Workflow.run ⟨ss⟩ L (some c) = .ok c') ∧
    (∀ (s : WorkflowStep) (L : Listeners) (e : PyErr) (f : Hook)
      (fs : List Hook), s.pre_funcs = f :: fs →
      (∀ p c m, f p c m = .error e) →
      ∀ (c : WorkflowContext), c.should_stop = false →
      s.run L c = .error e ∧
      (∀ rest : List WorkflowStep, c.current_step_index = 0 →
        Workflow.run ⟨s :: rest⟩ L (some c) = .error e)) ∧
    (∀ (s : WorkflowStep) (L : Listeners) (e : PyErr) (g : Hook)
      (gs : List Hook), s.pre_funcs = [] → OkMain s.main_func →
      s.post_funcs = g :: gs → (∀ p c m, g p c m = .error e) →
      ∀ (c : WorkflowContext), c.should_stop = false →
      s.run L c = .error e) := by
  refine ⟨step_run_noRaise, ?_, ?_, ?_⟩
  · intro ss hss L c
    exact runFrom_noRaise ss hss L ss.length c.current_step_index (by omega) c
  · intro s L e f fs hpre hf c hstop
    have hstep := step_run_preRaise s L e f fs hpre hf c hstop
    refine ⟨hstep, ?_⟩
    intro rest hc0
    have hrun0 : Workflow.run ⟨s :: rest⟩ L (some c) =
        Workflow.runFrom ⟨s :: rest⟩ L c.current_step_index c := rfl
    rw [hrun0, hc0]
    exact runFrom_error ⟨s :: rest⟩ L 0 (by simp) c hstop e hstep
  · intro s L e g gs hnopre hmain hpost hg c hstop
    exact step_run_postRaise s L e hnopre hmain g gs hpost hg c hstop

/-- A demo step whose (only) pre-hook always raises. -/
def preRaiseDemoStep : WorkflowStep :=
  { name := "p", main_func := noOpMain, main_params := [], step_id := "p",
    pre_funcs := [raisingHook ("e1", "t1")], pre_params := [],
    post_funcs := [], post_params := [], max_retries := 0 }

/-- A demo step whose (only) post-hook always raises. -/
def postRaiseDemoStep : WorkflowStep :=
  { name := "q", main_func := noOpMain, main_params := [], step_id := "q",
    pre_funcs := [], pre_params := [],
    post_funcs := [raisingHook ("e2", "t2")], post_params := [],
    max_retries := 0 }

/-- Witness for C4: one concrete instance of each of its four parts. -/
theorem C4_exception_boundary_witness :
    (∃ o, (benignDemoStep "a").run [] WorkflowContext.fresh = .ok o) ∧
    (∃ c', Workflow.run ⟨[benignDemoStep "a"]⟩ []
      (some WorkflowContext.fresh) = .ok c') ∧
    (preRaiseDemoStep.run [] WorkflowContext.fresh = .error ("e1", "t1")) ∧
    (Workflow.run ⟨[preRaiseDemoStep]⟩ [] (some WorkflowContext.fresh) =
      .error ("e1", "t1")) ∧
    (postRaiseDemoStep.run [] WorkflowContext.fresh = .error ("e2", "t2")) := by
  obtain ⟨h1, h2, h3, h4⟩ := C4_exception_boundary
  have hnr : NoRaiseStep (benignDemoStep "a") := by
    constructor
    · intro f hf
      simp [benignDemoStep] at hf
    · intro f hf
      simp [benignDemoStep] at hf
  have h3' := h3 preRaiseDemoStep [] ("e1", "t1") (raisingHook ("e1", "t1")) []
    rfl (fun p c m => rfl) WorkflowContext.fresh rfl
  refine ⟨h1 (benignDemoStep "a") hnr [] WorkflowContext.fresh, ?_, h3'.1,
    h3'.2 [] rfl, ?_⟩
  · apply h2
    intro s hs
    have hs' : s = benignDemoStep "a" := by simpa using hs
    rw [hs']
    exact hnr
  · exact h4 postRaiseDemoStep [] ("e2", "t2") (raisingHook ("e2", "t2")) [] rfl
      (fun p n c => ⟨PyVal.pyNone, rfl⟩) rfl (fun p c m => rfl)
      WorkflowContext.fresh rfl

/-- C5: the progress events of one step execution.  (1) With no stop
requested, hooks and listeners that emit no events of their own (and do not
request a stop), and a main operation failing on exactly its first `F`
attempts within the budget: the step's event trace is exactly one `started`,
then one `retrying` per failed non-final attempt, then one `completed`.
(2) With pure-observer listeners and a main operation that fails on every
attempt, the trace is `started`, `retrying` for each non-final attempt, then
exactly one `failed`.  (3) Delivery order: `on` appends the callback to the
name's listener list, and `emit_event` invokes the registered callbacks by a
left fold over that list — i.e. in subscription order. -/
theorem C5_event_sequence :
    (∀ (s : WorkflowStep) (L : Listeners), TameListeners L →
      (∀ f ∈ s.pre_funcs, TameHook f) → (∀ f ∈ s.post_funcs, TameHook f) →
      ∀ (F : Nat), TameMainUntil s.main_func F → F ≤ s.max_retries.toNat →
      ∀ (c : WorkflowContext), c.should_stop = false →
      ∃ out r, s.run L c = .ok (out, some r) ∧
        out.events = c.events ++ [startedEv s] ++ retryEvs s.step_id F ++
          [completedEv s] ∧
        out.should_stop = false) ∧
    (∀ (s : WorkflowStep) (L : Listeners), IdListeners L →
      (∀ f ∈ s.pre_funcs, PureHook f) →
      ∀ (err : Nat → PyErr),
      (∀ p n c, s.main_func p n c = (c, .error (err n))) →
      ∀ (c : WorkflowContext), c.should_stop = false →
      ∃ out, s.run L c = .ok (out, none) ∧
        out.events = c.events ++ [startedEv s] ++
          retryEvs s.step_id s.max_retries.toNat ++ [failedEv s.step_id]) ∧
    (∀ (L : Listeners) (nm nm' : String) (cb : Listener),
      Listeners.get (WorkflowContext.onEvent L nm cb) nm' =
        (if nm' = nm then Listeners.get L nm' ++ [cb]
         else Listeners.get L nm')) ∧
    (∀ (L : Listeners) (c : WorkflowContext) (nm : String) (p : PyDict PyVal),
      WorkflowContext.emit_event L c nm p =
        (Listeners.get L nm).foldl (fun acc cb => cb p acc)
          { c with events := c.events ++ [(nm, p)] }) := by
  refine ⟨?_, ?_, ?_, fun L c nm p => rfl⟩
  · intro s L hL hpre hpost F hg hF c hstop
    exact step_run_tame s L hL hpre hpost F hg hF c hstop
  · intro s L hL hpre err hg c hstop
    obtain ⟨out, mfin, hrun, _, _, _, _, hev, _, _, _⟩ :=
      step_run_fail s L hL hpre err hg c hstop
    exact ⟨out, hrun, hev⟩
  · intro L nm nm' cb
    by_cases h : nm' = nm
    · subst h
      simp [WorkflowContext.onEvent, Listeners.get, PyDict.lookup_set_self]
    · simp [WorkflowContext.onEvent, Listeners.get,
        PyDict.lookup_set_ne _ _ h, h]

/-- An always-failing main operation (error `("boom", "tb")`), context
untouched. -/
def alwaysFailMain : MainFunc := fun _ _ c => (c, .error ("boom", "tb"))

/-- A no-hook step around `alwaysFailMain` with no retry budget. -/
def failDemoStep : WorkflowStep :=
  { name := "f", main_func := alwaysFailMain, main_params := [], step_id := "f",
    pre_funcs := [], pre_params := [], post_funcs := [], post_params := [],
    max_retries := 0 }

/-- Witness for C5: the retry-once-then-succeed step emits
`started, retrying, completed`; the always-failing no-retry step emits
`started, failed`; and the subscription-order facts at concrete inputs. -/
theorem C5_event_sequence_witness :
    (∃ out r, retryOnceStep.run [] WorkflowContext.fresh = .ok (out, some r) ∧
      out.events = ([] : List EventRec) ++ [startedEv retryOnceStep] ++ retryEvs "b" 1 ++
        [completedEv retryOnceStep] ∧
      out.should_stop = false) ∧
    (∃ out, failDemoStep.run [] WorkflowContext.fresh = .ok (out, none) ∧
      out.events = ([] : List EventRec) ++ [startedEv failDemoStep] ++ retryEvs "f" 0 ++
        [failedEv "f"]) ∧
    (Listeners.get (WorkflowContext.onEvent [] "progress" (fun _ cc => cc))
        "progress" =
      (if "progress" = "progress" then
        Listeners.get [] "progress" ++ [fun _ cc => cc]
       else Listeners.get [] "progress")) ∧
    (WorkflowContext.emit_event [] WorkflowContext.fresh "x" [] =
      (Listeners.get [] "x").foldl (fun acc cb => cb [] acc)
        { WorkflowContext.fresh with
          events := WorkflowContext.fresh.events ++ [(("x", ([] : PyDict PyVal)) : EventRec)] }) := by
  obtain ⟨h1, h2, h3, h4⟩ := C5_event_sequence
  refine ⟨?_, ?_, h3 [] "progress" "progress" (fun _ cc => cc),
    h4 [] WorkflowContext.fresh "x" []⟩
  · exact h1 retryOnceStep [] (by intro nm cb hcb; simp [Listeners.get, PyDict.lookup] at hcb)
      (by intro f hf; simp [retryOnceStep, WorkflowStep.init] at hf)
      (by intro f hf; simp [retryOnceStep, WorkflowStep.init] at hf)
      1
      (by intro p n cc
          cases n with
          | zero => exact ⟨rfl, rfl, fun _ => ⟨("boom", "tb0"), rfl⟩,
              fun h => absurd h (by omega)⟩
          | succ n' => exact ⟨rfl, rfl, fun h => absurd h (by omega),
              fun _ => ⟨PyVal.pyInt 42, rfl⟩⟩)
      le_rfl WorkflowContext.fresh rfl
  · exact h2 failDemoStep [] idListeners_nil
      (by intro f hf; simp [failDemoStep] at hf)
      (fun _ => ("boom", "tb")) (fun p n cc => rfl) WorkflowContext.fresh rfl

/-- A progress listener that calls `context.request_stop()` when it observes
a `retrying` event. -/
def stopOnRetry : Listener := fun p c =>
  match p.lookup "status" with
  | some (PyVal.pyStr st) => if st = "retrying" then c.request_stop else c
  | _ => c

/-- The registry with `stopOnRetry` subscribed to `progress`. -/
def stopListeners : Listeners :=
  WorkflowContext.onEvent [] "progress" stopOnRetry

theorem workflow_single_then_stop (s : WorkflowStep) (rest : List WorkflowStep)
    (L : Listeners) (c : WorkflowContext) (hstop : c.should_stop = false)
    (hc0 : c.current_step_index = 0) (out : WorkflowContext) (ret : Option PyVal)
    (hrun : s.run L c = .ok (out, ret)) (hout : out.should_stop = true) :
    Workflow.run ⟨s :: rest⟩ L (some c) =
      .ok { out with current_step_index := 1 } := by
  have h0 : Workflow.run ⟨s :: rest⟩ L (some c) =
      Workflow.runFrom ⟨s :: rest⟩ L c.current_step_index c := rfl
  rw [h0, hc0, runFrom_cons ⟨s :: rest⟩ L 0 (by simp) c hstop out ret hrun]
  exact runFrom_stop _ _ _ _ hout

theorem step_run_stop_during_main (s : WorkflowStep) (L : Listeners)
    (hL : IdListeners L) (hnopre : s.pre_funcs = []) (hnopost : s.post_funcs = [])
    (e₀ : PyErr) (r : PyVal)
    (hm0 : ∀ p cc, s.main_func p 0 cc = (cc.request_stop, .error e₀))
    (hm1 : ∀ p n cc, 1 ≤ n → s.main_func p n cc = (cc, .ok r))
    (hR : 1 ≤ s.max_retries.toNat)
    (c : WorkflowContext) (hstop : c.should_stop = false) :
    ∃ out, s.run L c = .ok (out, some r) ∧
      out.should_stop = true ∧
      (out.data.lookup s.step_id).isSome = true ∧
      out.events = c.events ++ [startedEv s, retryingEv s.step_id, completedEv s] ∧
      CallEntry.mainCall s.step_id s.main_params 1 ∈ out.log := by
  obtain ⟨f, hf⟩ : ∃ f, s.max_retries.toNat = f + 1 :=
    ⟨s.max_retries.toNat - 1, by omega⟩
  set C1 : WorkflowContext :=
    { c with events := c.events ++ [("progress", startedPayload s.step_id s.name)] }
    with hC1
  set X : WorkflowContext :=
    (C1.logCall (CallEntry.mainCall s.step_id s.main_params 0)).request_stop
    with hX
  set C2 : WorkflowContext :=
    { X with events := X.events ++ [("progress", retryingPayload s.step_id)] }
    with hC2
  set M1 : PyDict PyVal := s.initialMetadata.set "pre_result" (PyVal.pyList [])
    with hM1
  set M2 : PyDict PyVal :=
    (M1.set "error" (.pyStr e₀.1)).set "traceback" (.pyStr e₀.2) with hM2
  have hA1 : mainLoop s.main_func s.main_params s.step_id L (f + 1) 0 C1 M1 =
      mainLoop s.main_func s.main_params s.step_id L f 1 C2 M2 := by
    simp only [mainLoop]
    rw [hm0]
    simp only []
    rw [emit_id hL]
  have hA2 : mainLoop s.main_func s.main_params s.step_id L f 1 C2 M2 =
      (C2.logCall (CallEntry.mainCall s.step_id s.main_params 1),
        M2.set "result" r, some r) := by
    cases f with
    | zero =>
      simp only [mainLoop]
      rw [hm1 _ 1 _ le_rfl]
    | succ f' =>
      simp only [mainLoop]
      rw [hm1 _ 1 _ le_rfl]
  have hlook : ((M2.set "result" r).set "post_result" (PyVal.pyList [])).lookup
      "result" = some r := by
    rw [PyDict.lookup_set_ne _ _ (by decide), PyDict.lookup_set_self]
  have hrun : s.run L c = .ok
      (WorkflowContext.emit_event L
        ((C2.logCall (CallEntry.mainCall s.step_id s.main_params 1)
          ).store_step_result s.step_id
          ((M2.set "result" r).set "post_result" (PyVal.pyList [])))
        "progress" (completedPayload s.step_id s.name), some r) := by
    simp only [WorkflowStep.run, hstop, Bool.false_eq_true, if_false, hnopre,
      hnopost, runHooks]
    rw [emit_id hL, ← hC1, hf, hA1, hA2]
    simp only [Bool.false_eq_true, if_false]
    rw [hlook]
    rfl
  refine ⟨_, hrun, ?_, ?_, ?_, ?_⟩
  · simp only [emit_id hL, WorkflowContext.store_step_result,
      WorkflowContext.logCall, hC2, hX, WorkflowContext.request_stop]
  · simp only [emit_id hL, WorkflowContext.store_step_result,
      WorkflowContext.logCall]
    rw [PyDict.lookup_set_self]
    rfl
  · simp only [emit_id hL, WorkflowContext.store_step_result,
      WorkflowContext.logCall, hC2, hX, WorkflowContext.request_stop, hC1]
    simp [startedEv, retryingEv, completedEv]
  · simp only [emit_id hL, WorkflowContext.store_step_result,
      WorkflowContext.logCall, hC2, hX, WorkflowContext.request_stop, hC1]
    simp

theorem step_run_stop_by_listener (s : WorkflowStep)
    (hnopre : s.pre_funcs = []) (hnopost : s.post_funcs = [])
    (e₀ : PyErr) (r : PyVal)
    (hm0 : ∀ p cc, s.main_func p 0 cc = (cc, .error e₀))
    (hm1 : ∀ p n cc, 1 ≤ n → s.main_func p n cc = (cc, .ok r))
    (hR : 1 ≤ s.max_retries.toNat)
    (c : WorkflowContext) (hstop : c.should_stop = false) :
    ∃ out, s.run stopListeners c = .ok (out, some r) ∧
      out.should_stop = true ∧
      (out.data.lookup s.step_id).isSome = true ∧
      out.events = c.events ++ [startedEv s, retryingEv s.step_id, completedEv s] ∧
      CallEntry.mainCall s.step_id s.main_params 1 ∈ out.log := by
  obtain ⟨f, hf⟩ : ∃ f, s.max_retries.toNat = f + 1 :=
    ⟨s.max_retries.toNat - 1, by omega⟩
  have hemitB : ∀ (cc : WorkflowContext) (p : PyDict PyVal),
      WorkflowContext.emit_event stopListeners cc "progress" p =
        stopOnRetry p { cc with events := cc.events ++ [("progress", p)] } :=
    fun cc p => rfl
  have hstart : ∀ cc : WorkflowContext,
      stopOnRetry (startedPayload s.step_id s.name) cc = cc := fun cc => rfl
  have hretry : ∀ cc : WorkflowContext,
      stopOnRetry (retryingPayload s.step_id) cc = cc.request_stop :=
    fun cc => rfl
  have hcompl : ∀ cc : WorkflowContext,
      stopOnRetry (completedPayload s.step_id s.name) cc = cc := fun cc => rfl
  set C1 : WorkflowContext :=
    { c with events := c.events ++ [("progress", startedPayload s.step_id s.name)] }
    with hC1
  set X : WorkflowContext :=
    C1.logCall (CallEntry.mainCall s.step_id s.main_params 0) with hX
  set C2 : WorkflowContext :=
    WorkflowContext.request_stop
      { X with events := X.events ++ [("progress", retryingPayload s.step_id)] }
    with hC2
  set M1 : PyDict PyVal := s.initialMetadata.set "pre_result" (PyVal.pyList [])
    with hM1
  set M2 : PyDict PyVal :=
    (M1.set "error" (.pyStr e₀.1)).set "traceback" (.pyStr e₀.2) with hM2
  have hB1 : mainLoop s.main_func s.main_params s.step_id stopListeners (f + 1)
      0 C1 M1 =
      mainLoop s.main_func s.main_params s.step_id stopListeners f 1 C2 M2 := by
    simp only [mainLoop]
    rw [hm0]
    simp only []
    rw [hemitB, hretry]
  have hB2 : mainLoop s.main_func s.main_params s.step_id stopListeners f 1 C2
      M2 =
      (C2.logCall (CallEntry.mainCall s.step_id s.main_params 1),
        M2.set "result" r, some r) := by
    cases f with
    | zero =>
      simp only [mainLoop]
      rw [hm1 _ 1 _ le_rfl]
    | succ f' =>
      simp only [mainLoop]
      rw [hm1 _ 1 _ le_rfl]
  have hlookB : ((M2.set "result" r).set "post_result" (PyVal.pyList [])).lookup
      "result" = some r := by
    rw [PyDict.lookup_set_ne _ _ (by decide), PyDict.lookup_set_self]
  set Y : WorkflowContext :=
    (C2.logCall (CallEntry.mainCall s.step_id s.main_params 1)).store_step_result
      s.step_id ((M2.set "result" r).set "post_result" (PyVal.pyList [])) with hY
  have hrun : s.run stopListeners c = .ok
      ({ Y with
          events := Y.events ++ [("progress", completedPayload s.step_id s.name)] },
        some r) := by
    simp only [WorkflowStep.run, hstop, Bool.false_eq_true, if_false, hnopre,
      hnopost, runHooks]
    rw [hemitB, hstart, ← hC1, hf, hB1, hB2]
    simp only [Bool.false_eq_true, if_false]
    rw [hemitB, hcompl, hlookB]
    rfl
  refine ⟨_, hrun, ?_, ?_, ?_, ?_⟩
  · simp only [hY, WorkflowContext.store_step_result, WorkflowContext.logCall,
      hC2, WorkflowContext.request_stop]
  · simp only [hY, WorkflowContext.store_step_result, WorkflowContext.logCall]
    rw [PyDict.lookup_set_self]
    rfl
  · simp only [hY, WorkflowContext.store_step_result, WorkflowContext.logCall,
      hC2, WorkflowContext.request_stop, hX, hC1]
    simp [startedEv, retryingEv, completedEv]
  · simp only [hY, WorkflowContext.store_step_result, WorkflowContext.logCall,
      hC2, WorkflowContext.request_stop, hX, hC1]
    simp

/-- **C10**: once the main attempt has started, `context.should_stop` is not
consulted again before the attempt (and its retries) resolve.  A stop request
raised *during* the main phase — whether by the main operation itself (first
conjunct: the attempt calls `request_stop` and raises) or by a `progress`
listener reacting to the `retrying` event (second conjunct) — does not abort
the retry loop: the next attempt still runs (its invocation is in the call
log), succeeds, and the step completes normally (result stored, `completed`
event emitted, the step's return value produced).  The stop flag is only
honoured at the next boundary: a following workflow iteration observes it and
breaks, so a one-step workflow still ends with the cursor advanced past the
completed step. -/
theorem C10_stop_not_observed_during_main :
    (∀ (s : WorkflowStep) (L : Listeners), IdListeners L →
      s.pre_funcs = [] → s.post_funcs = [] →
      ∀ (e₀ : PyErr) (r : PyVal),
        (∀ p cc, s.main_func p 0 cc = (cc.request_stop, Except.error e₀)) →
        (∀ p n cc, 1 ≤ n → s.main_func p n cc = (cc, Except.ok r)) →
        1 ≤ s.max_retries.toNat →
        ∀ (c : WorkflowContext), c.should_stop = false →
        ∃ out, s.run L c = Except.ok (out, some r) ∧
          out.should_stop = true ∧
          (out.data.lookup s.step_id).isSome = true ∧
          out.events = c.events ++
            [startedEv s, retryingEv s.step_id, completedEv s] ∧
          CallEntry.mainCall s.step_id s.main_params 1 ∈ out.log ∧
          (c.current_step_index = 0 → ∀ rest,
            Workflow.run ⟨s :: rest⟩ L (some c) =
              Except.ok { out with current_step_index := 1 })) ∧
    (∀ (s : WorkflowStep),
      s.pre_funcs = [] → s.post_funcs = [] →
      ∀ (e₀ : PyErr) (r : PyVal),
        (∀ p cc, s.main_func p 0 cc = (cc, Except.error e₀)) →
        (∀ p n cc, 1 ≤ n → s.main_func p n cc = (cc, Except.ok r)) →
        1 ≤ s.max_retries.toNat →
        ∀ (c : WorkflowContext), c.should_stop = false →
        ∃ out, s.run stopListeners c = Except.ok (out, some r) ∧
          out.should_stop = true ∧
          (out.data.lookup s.step_id).isSome = true ∧
          out.events = c.events ++
            [startedEv s, retryingEv s.step_id, completedEv s] ∧
          CallEntry.mainCall s.step_id s.main_params 1 ∈ out.log ∧
          (c.current_step_index = 0 → ∀ rest,
            Workflow.run ⟨s :: rest⟩ stopListeners (some c) =
              Except.ok { out with current_step_index := 1 })) := by
  constructor
  · intro s L hL hnopre hnopost e₀ r hm0 hm1 hR c hstop
    obtain ⟨out, h1, h2, h3, h4, h5⟩ :=
      step_run_stop_during_main s L hL hnopre hnopost e₀ r hm0 hm1 hR c hstop
    exact ⟨out, h1, h2, h3, h4, h5, fun hc0 rest =>
      workflow_single_then_stop s rest L c hstop hc0 out (some r) h1 h2⟩
  · intro s hnopre hnopost e₀ r hm0 hm1 hR c hstop
    obtain ⟨out, h1, h2, h3, h4, h5⟩ :=
      step_run_stop_by_listener s hnopre hnopost e₀ r hm0 hm1 hR c hstop
    exact ⟨out, h1, h2, h3, h4, h5, fun hc0 rest =>
      workflow_single_then_stop s rest stopListeners c hstop hc0 out (some r)
        h1 h2⟩

/-- A main operation that requests a stop and raises on its first invocation,
then succeeds (with `7`) from the second invocation on. -/
def stopRequestMain : MainFunc := fun _ n c =>
  match n with
  | 0 => (c.request_stop, .error ("boom", "tb0"))
  | _ => (c, .ok (PyVal.pyInt 7))

/-- A step around `stopRequestMain` with `max_retries = 1` and no hooks. -/
def stopRequestStep : WorkflowStep :=
  WorkflowStep.init "a10" stopRequestMain [("max_retries", PyVal.pyInt 1)] "a10"
    [] [] [] []

/-- Witness for C10: concrete instances of both conjuncts.  First: a step whose
main operation calls `request_stop` and raises on attempt 0; the retry still
runs and the step returns `7`.  Second: `retryOnceStep` run under a registry
whose `progress` listener stops the workflow on `retrying`; the retry still
runs and the step returns `42`.  In both cases the stop is honoured only at
the next workflow-loop boundary. -/
theorem C10_stop_not_observed_during_main_witness :
    (∃ out, stopRequestStep.run [] WorkflowContext.fresh =
        Except.ok (out, some (PyVal.pyInt 7)) ∧
      out.should_stop = true ∧
      (out.data.lookup stopRequestStep.step_id).isSome = true ∧
      out.events = WorkflowContext.fresh.events ++ [startedEv stopRequestStep,
        retryingEv stopRequestStep.step_id, completedEv stopRequestStep] ∧
      CallEntry.mainCall stopRequestStep.step_id stopRequestStep.main_params 1 ∈
        out.log ∧
      (WorkflowContext.fresh.current_step_index = 0 → ∀ rest,
        Workflow.run ⟨stopRequestStep :: rest⟩ [] (some WorkflowContext.fresh) =
          Except.ok { out with current_step_index := 1 })) ∧
    (∃ out, retryOnceStep.run stopListeners WorkflowContext.fresh =
        Except.ok (out, some (PyVal.pyInt 42)) ∧
      out.should_stop = true ∧
      (out.data.lookup retryOnceStep.step_id).isSome = true ∧
      out.events = WorkflowContext.fresh.events ++ [startedEv retryOnceStep,
        retryingEv retryOnceStep.step_id, completedEv retryOnceStep] ∧
      CallEntry.mainCall retryOnceStep.step_id retryOnceStep.main_params 1 ∈
        out.log ∧
      (WorkflowContext.fresh.current_step_index = 0 → ∀ rest,
        Workflow.run ⟨retryOnceStep :: rest⟩ stopListeners
          (some WorkflowContext.fresh) =
          Except.ok { out with current_step_index := 1 })) := by
  refine ⟨C10_stop_not_observed_during_main.1 stopRequestStep [] idListeners_nil
      rfl rfl ("boom", "tb0") (PyVal.pyInt 7) (fun p cc => rfl) ?_ (by decide)
      WorkflowContext.fresh rfl,
    C10_stop_not_observed_during_main.2 retryOnceStep rfl rfl ("boom", "tb0")
      (PyVal.pyInt 42) (fun p cc => rfl) ?_ (by decide)
      WorkflowContext.fresh rfl⟩
  · intro p n cc hn
    cases n with
    | zero => exact absurd hn (by decide)
    | succ m => rfl
  · intro p n cc hn
    cases n with
    | zero => exact absurd hn (by decide)
    | succ m => rfl
